import Mathlib

/-!
Verification of the starlark-conversion core of the targets-migration tooling.

The embedded code consists of:

- the value model and renderer (the `values` module: list / dict / call
  builders, the render protocol, the elision rule and `to_output`), modelled
  from the specification and validated byte-for-byte against the expected
  outputs recorded in the repository's unit tests;
- `starlark_conversions.py` (`convert_direct`, `convert_arg`, `convert_args`,
  `convert_resultdb`, `convert_swarming`, `convert_skylab`);
- `post_migrate_targets_lib.py` (`convert_basic_suite`,
  `convert_compound_suite`, `convert_matrix_compound_suite`).

Python's `dict` values are embedded as association lists in insertion order;
assignment into a builder or dict uses replace-in-place-or-append semantics
(`insertOrReplace`), matching Python mapping assignment. Failure (an uncaught
Python exception) is embedded as `Except.error` carrying the exception
message.
-/

set_option maxHeartbeats 4000000

namespace TargetsMigration

/-! ### The value model

Modelled from the spec: the `values` module is not part of the sources, only
its callers and tests are. A `Value` is either an atom (already-rendered
target-language text) or a composite builder; builders render with their
direct children indented two further spaces, and a `CallValueBuilder` with an
elision parameter renders as just that parameter's value when it is the sole
parameter. A call builder that ends up with no parameters produces no output
(`output` is `none`) and containers skip such children, as witnessed by the
repository's own test expectations.
-/

inductive Value where
  | atom  (s : String)
  | listB (es : List Value)
  | dictB (ps : List (String × Value))
  | callB (t : String) (ps : List (String × Value)) (elide : Option String)

instance : Inhabited Value := ⟨.atom ""⟩

def spaces (n : Nat) : String := String.mk (List.replicate n ' ')

/-- A call builder renders to nothing when, after elision, it has no
parameters. -/
def isEmptyCall : Value → Bool
  | .callB _ [] _ => true
  | .callB _ [(p, v)] (some e) => p == e && isEmptyCall v
  | _ => false

mutual

/-- Render a value; `ind` is the indentation of the builder's direct
children, the closing delimiter sits two spaces shallower. The top-level
entry point uses `ind = 2`. -/
def render : Nat → Value → String
  | _, .atom s => s
  | ind, .listB es =>
      let body := renderItems ind es
      if body = "" then "[]" else "[\n" ++ body ++ spaces (ind - 2) ++ "]"
  | ind, .dictB ps =>
      let body := renderPairs ind ps
      if body = "" then "\x7b\x7d" else "\x7b\n" ++ body ++ spaces (ind - 2) ++ "\x7d"
  | ind, .callB t [] _ => t ++ "(\n" ++ spaces (ind - 2) ++ ")"
  | ind, .callB t [(p, v)] (some el) =>
      if p = el then render ind v
      else t ++ "(\n" ++ renderParams ind [(p, v)] ++ spaces (ind - 2) ++ ")"
  | ind, .callB t [(p, v)] none =>
      t ++ "(\n" ++ renderParams ind [(p, v)] ++ spaces (ind - 2) ++ ")"
  | ind, .callB t (p₁ :: p₂ :: ps) _ =>
      t ++ "(\n" ++ renderParams ind (p₁ :: p₂ :: ps) ++ spaces (ind - 2) ++ ")"

def renderItems : Nat → List Value → String
  | _, [] => ""
  | ind, v :: rest =>
      (if isEmptyCall v then "" else spaces ind ++ render (ind + 2) v ++ ",\n")
        ++ renderItems ind rest

def renderPairs : Nat → List (String × Value) → String
  | _, [] => ""
  | ind, (k, v) :: rest =>
      (if isEmptyCall v then "" else spaces ind ++ k ++ ": " ++ render (ind + 2) v ++ ",\n")
        ++ renderPairs ind rest

def renderParams : Nat → List (String × Value) → String
  | _, [] => ""
  | ind, (p, v) :: rest =>
      (if isEmptyCall v then "" else spaces ind ++ p ++ " = " ++ render (ind + 2) v ++ ",\n")
        ++ renderParams ind rest

end

/-- `ValueBuilder.output`: the final render at top level, `None` for a
builder that renders to nothing. -/
def Value.output (v : Value) : Option String :=
  if isEmptyCall v then none else some (render 2 v)

/-- `values.to_output`. -/
def to_output (v : Value) : Option String := v.output

/-- Python mapping assignment on an insertion-ordered association list:
replace in place if the key is present, append otherwise. -/
def insertOrReplace : List (String × Value) → String → Value → List (String × Value)
  | [], k, v => [(k, v)]
  | (k₀, v₀) :: rest, k, v =>
      if k₀ = k then (k, v) :: rest else (k₀, v₀) :: insertOrReplace rest k v

/-! ### Python values

The legacy schema data handled by `convert_direct`: `None`, booleans,
integers, strings, lists and (string-keyed, insertion-ordered) dicts.
`other` stands for any Python value of a shape outside this list (such as a
`set`), carrying its `repr` text. -/

inductive PyValue where
  | none
  | bool (b : Bool)
  | int (n : Int)
  | str (s : String)
  | list (es : List PyValue)
  | dict (ps : List (String × PyValue))
  | other (rep : String)

instance : Inhabited PyValue := ⟨.none⟩

/-- `value.replace("\"", "\\\"")`: with a one-character pattern, Python's
`str.replace` rewrites each occurrence of that character independently. -/
def escapeQuotes : List Char → List Char
  | [] => []
  | c :: cs => if c = '"' then '\\' :: '"' :: escapeQuotes cs else c :: escapeQuotes cs

/-- The starlark spelling of a Python string: `'"{}"'.format(...)` after
quote escaping. -/
def pyQuote (s : String) : String := "\"" ++ String.mk (escapeQuotes s.data) ++ "\""

/-- The character for one decimal digit. -/
def digitChar : Nat → Char
  | 0 => '0'
  | 1 => '1'
  | 2 => '2'
  | 3 => '3'
  | 4 => '4'
  | 5 => '5'
  | 6 => '6'
  | 7 => '7'
  | 8 => '8'
  | 9 => '9'
  | _ => '0'

/-- Decimal digits of a natural number, most significant first
(accumulator form). -/
def natDigsAux (n : Nat) (acc : List Char) : List Char :=
  if n < 10 then digitChar n :: acc
  else natDigsAux (n / 10) (digitChar (n % 10) :: acc)
  termination_by n
  decreasing_by exact Nat.div_lt_self (Nat.pos_of_ne_zero (by omega)) (by omega)

/-- Decimal digits, non-accumulator form (used to reason about
`natDigsAux`). -/
def digitsOf (n : Nat) : List Char :=
  if n < 10 then [digitChar n]
  else digitsOf (n / 10) ++ [digitChar (n % 10)]
  termination_by n
  decreasing_by exact Nat.div_lt_self (Nat.pos_of_ne_zero (by omega)) (by omega)

/-- Python's `str` on an `int`: decimal digits, a leading `-` when
negative. -/
def pyIntStr (n : Int) : String :=
  if n < 0 then "-" ++ String.mk (natDigsAux (-n).toNat [])
  else String.mk (natDigsAux n.toNat [])

mutual

/-- `starlark_conversions.convert_direct`. -/
def convert_direct : PyValue → Except String Value
  | .none => .ok (.atom "None")
  | .bool true => .ok (.atom "True")
  | .bool false => .ok (.atom "False")
  | .int n => .ok (.atom (pyIntStr n))
  | .str s => .ok (.atom (pyQuote s))
  | .list es => do
      let vs ← convertDirectList es
      .ok (.listB vs)
  | .dict ps => do
      let qs ← convertDirectPairs ps
      .ok (.dictB qs)
  | .other rep => .error ("unhandled python value: " ++ rep)

def convertDirectList : List PyValue → Except String (List Value)
  | [] => .ok []
  | e :: es => do
      let v ← convert_direct e
      let vs ← convertDirectList es
      .ok (v :: vs)

def convertDirectPairs : List (String × PyValue) → Except String (List (String × Value))
  | [] => .ok []
  | (k, e) :: ps => do
      let v ← convert_direct e
      let qs ← convertDirectPairs ps
      .ok ((pyQuote k, v) :: qs)

end

/-- `_MAGIC_ARG_MAPPING`. -/
def MAGIC_ARG_MAPPING : List (String × String) :=
  [("$$MAGIC_SUBSTITUTION_AndroidDesktopTelemetryRemote", "ANDROID_DESKTOP_TELEMETRY_REMOTE"),
   ("$$MAGIC_SUBSTITUTION_ChromeOSTelemetryRemote", "CROS_TELEMETRY_REMOTE"),
   ("$$MAGIC_SUBSTITUTION_ChromeOSGtestFilterFile", "CROS_GTEST_FILTER_FILE"),
   ("$$MAGIC_SUBSTITUTION_GPUExpectedVendorId", "GPU_EXPECTED_VENDOR_ID"),
   ("$$MAGIC_SUBSTITUTION_GPUExpectedDeviceId", "GPU_EXPECTED_DEVICE_ID"),
   ("$$MAGIC_SUBSTITUTION_GPUParallelJobs", "GPU_PARALLEL_JOBS"),
   ("$$MAGIC_SUBSTITUTION_GPUTelemetryNoRootForUnrootedDevices",
    "GPU_TELEMETRY_NO_ROOT_FOR_UNROOTED_DEVICES"),
   ("$$MAGIC_SUBSTITUTION_GPUWebGLRuntimeFile", "GPU_WEBGL_RUNTIME_FILE")]

/-- Python's `str.startswith`. -/
def pyStartsWith (s pre : String) : Bool := pre.data.isPrefixOf s.data

/-- `starlark_conversions.convert_arg`; an unknown magic-substitution name
raises `KeyError` in Python. -/
def convert_arg (arg : String) : Except String Value :=
  if pyStartsWith arg "$$MAGIC_SUBSTITUTION_" then
    match (MAGIC_ARG_MAPPING.lookup arg) with
    | some name => .ok (.atom ("targets.magic_args." ++ name))
    | Option.none => .error ("KeyError: " ++ arg)
  else convert_direct (.str arg)

/-- Iterating a Python value with `for x in value`: lists yield their
elements, strings their one-character substrings, dicts their keys; other
shapes raise `TypeError`. -/
def pyIter : PyValue → Except String (List PyValue)
  | .list es => .ok es
  | .str s => .ok (s.data.map fun c => .str (String.mk [c]))
  | .dict ps => .ok (ps.map fun p => .str p.1)
  | _ => .error "TypeError: value is not iterable"

/-- `value.items()`: available on dicts only; other shapes raise
`AttributeError`. -/
def pyItems : PyValue → Except String (List (String × PyValue))
  | .dict ps => .ok ps
  | _ => .error "AttributeError: value has no attribute items"

/-- One argument inside `convert_args`: `convert_arg` needs a string
(`arg.startswith`), anything else raises `AttributeError`. -/
def convertOneArg : PyValue → Except String Value
  | .str s => convert_arg s
  | _ => .error "AttributeError: argument is not a string"

def convertArgList : List PyValue → Except String (List Value)
  | [] => .ok []
  | a :: args => do
      let v ← convertOneArg a
      let vs ← convertArgList args
      .ok (v :: vs)

/-- `starlark_conversions.convert_args` applied to the raw value found under
an args-family key. -/
def convert_args (value : PyValue) : Except String Value := do
  let args ← pyIter value
  let vs ← convertArgList args
  .ok (.listB vs)

/-- Shared walker for the closed-key-set sub-schema converters: each input
pair is dispatched through the schema's key table (`none` meaning an
unrecognized key), its value converted with `convert_direct` and assigned to
the mapped parameter name. -/
def schemaGo (schema : String) (keyMap : String → Option String)
    (acc : List (String × Value)) :
    List (String × PyValue) → Except String (List (String × Value))
  | [] => .ok acc
  | (key, value) :: rest =>
      match keyMap key with
      | some outKey => do
          let v ← convert_direct value
          schemaGo schema keyMap (insertOrReplace acc outKey v) rest
      | Option.none =>
          .error ("unhandled key in " ++ schema ++ ": \"" ++ key ++ "\"")

def resultdbKeyMap (k : String) : Option String :=
  match k with
  | "enable" => some k
  | _ => Option.none

def swarmingKeyMap (k : String) : Option String :=
  match k with
  | "dimensions" | "idempotent" | "service_account" | "shards" => some k
  | "expiration" => some "expiration_sec"
  | "hard_timeout" => some "hard_timeout_sec"
  | "io_timeout" => some "io_timeout_sec"
  | _ => Option.none

def skylabKeyMap (k : String) : Option String :=
  match k with
  | "shards" | "timeout_sec" => some k
  | _ => Option.none

/-- The closed key set of the resultdb schema. -/
def resultdbKeys : List String := ["enable"]

/-- The closed key set of the swarming schema. -/
def swarmingKeys : List String :=
  ["dimensions", "idempotent", "service_account", "shards",
   "expiration", "hard_timeout", "io_timeout"]

/-- The closed key set of the skylab schema. -/
def skylabKeys : List String := ["shards", "timeout_sec"]

/-- `starlark_conversions.convert_resultdb`. -/
def convert_resultdb (resultdb : List (String × PyValue)) : Except String Value := do
  let ps ← schemaGo "resultdb" resultdbKeyMap [] resultdb
  .ok (.callB "targets.resultdb" ps Option.none)

/-- `starlark_conversions.convert_swarming`. -/
def convert_swarming (swarming : List (String × PyValue)) : Except String Value := do
  let ps ← schemaGo "swarming" swarmingKeyMap [] swarming
  .ok (.callB "targets.swarming" ps Option.none)

/-- `starlark_conversions.convert_skylab`. -/
def convert_skylab (skylab : List (String × PyValue)) : Except String Value := do
  let ps ← schemaGo "skylab" skylabKeyMap [] skylab
  .ok (.callB "targets.skylab" ps Option.none)

/-! ### `post_migrate_targets_lib.py` -/

/-- The guard sentinel atom placed first in every generated `remove_mixins`
list. -/
def removeMixinsSentinel : String :=
  "\"DO NOT SUBMIT ensure all remove mixins values are present\""

/-- The mutable state accumulated while walking one test definition:
the anonymous `targets.mixin` builder's parameters, the explicit mixin list
(just the converted named mixins; the anonymous builder is aliased in front
of them when the list is materialized), and the
`targets.per_test_modification` builder's parameters. -/
structure TestState where
  anonParams : List (String × Value)
  mixinsNamed : Option (List Value)
  modParams : List (String × Value)

def initTestState : TestState :=
  { anonParams := [], mixinsNamed := Option.none, modParams := [] }

/-- What one arm of `convert_basic_suite`'s key dispatch does: nothing
(keys emitted elsewhere by the surrounding declaration), an assignment into
the anonymous mixin builder under an output key with a given value
conversion, the `mixins` arm, or the `remove_mixins` arm. -/
inductive BasicAction where
  | ignore
  | anon (out : String) (conv : PyValue → Except String Value)
  | mixins
  | removeMixins

/-- The per-key dispatch table of `convert_basic_suite`'s inner `match`,
arm by arm; `none` is the `case _` that raises. -/
def basicKeyAction : String → Option BasicAction
  | "results_handler" | "script" | "telemetry_test_name" | "test" | "test_common" =>
      some .ignore
  | "ci_only" => some (.anon "ci_only" convert_direct)
  | "experiment_percentage" => some (.anon "experiment_percentage" convert_direct)
  | "use_isolated_scripts_api" => some (.anon "use_isolated_scripts_api" convert_direct)
  | "android_args" => some (.anon "android_args" convert_args)
  | "chromeos_args" => some (.anon "chromeos_args" convert_args)
  | "desktop_args" => some (.anon "desktop_args" convert_args)
  | "args" => some (.anon "args" convert_args)
  | "lacros_args" => some (.anon "lacros_args" convert_args)
  | "linux_args" => some (.anon "linux_args" convert_args)
  | "resultdb" =>
      some (.anon "resultdb" fun v => do convert_resultdb (← pyItems v))
  | "android_swarming" =>
      some (.anon "android_swarming" fun v => do convert_swarming (← pyItems v))
  | "chromeos_swarming" =>
      some (.anon "chromeos_swarming" fun v => do convert_swarming (← pyItems v))
  | "swarming" =>
      some (.anon "swarming" fun v => do convert_swarming (← pyItems v))
  | "skylab" =>
      some (.anon "skylab" fun v => do convert_skylab (← pyItems v))
  | "mixins" => some .mixins
  | "remove_mixins" => some .removeMixins
  | _ => Option.none

/-- Does this key route a value into the anonymous mixin builder? -/
def anonFeedingKey (k : String) : Bool :=
  match basicKeyAction k with
  | some (.anon _ _) => true
  | _ => false

/-- The key dispatch of `convert_basic_suite`'s inner loop, one
key/value pair at a time. -/
def processTestKey (st : TestState) (key : String) (value : PyValue) :
    Except String TestState :=
  match basicKeyAction key with
  | some .ignore => .ok st
  | some (.anon out conv) => do
      let v ← conv value
      .ok { st with anonParams := insertOrReplace st.anonParams out v }
  | some .mixins => do
      let es ← pyIter value
      let named ← convertDirectList es
      .ok { st with mixinsNamed := some named }
  | some .removeMixins => do
      let es ← pyIter value
      let rs ← convertDirectList es
      let rmList := Value.listB (Value.atom removeMixinsSentinel :: rs)
      .ok { st with modParams := insertOrReplace st.modParams "remove_mixins" rmList }
  | Option.none =>
      .error ("unhandled key in basic suite test definition: \"" ++ key ++ "\"")

/-- The closed key set of a basic-suite test definition. -/
def basicSuiteKeys : List String :=
  ["results_handler", "script", "telemetry_test_name", "test", "test_common",
   "ci_only", "experiment_percentage", "use_isolated_scripts_api",
   "android_args", "chromeos_args", "desktop_args", "args", "lacros_args",
   "linux_args", "resultdb", "android_swarming", "chromeos_swarming",
   "swarming", "skylab", "mixins", "remove_mixins"]

def processTestKeys (st : TestState) :
    List (String × PyValue) → Except String TestState
  | [] => .ok st
  | (k, v) :: rest => do
      let st₁ ← processTestKey st k v
      processTestKeys st₁ rest

/-- Everything `convert_basic_suite` does for one test definition: walk the
keys, then assign `mixins_builder or anonymous_mixin_builder` to the
per-test-modification builder's `mixins` parameter. The result is the value
stored under the test's name in `per_test_modifications`. -/
def processTestDef (test : List (String × PyValue)) : Except String Value := do
  let st ← processTestKeys initTestState test
  let anon := Value.callB "targets.mixin" st.anonParams Option.none
  let eff := match st.mixinsNamed with
    | some named => Value.listB (anon :: named)
    | Option.none => anon
  .ok (Value.callB "targets.per_test_modification"
        (insertOrReplace st.modParams "mixins" eff) (some "mixins"))

def basicGo (targets : List Value) (ptm : List (String × Value)) :
    List (String × List (String × PyValue)) →
    Except String (List Value × List (String × Value))
  | [] => .ok (targets, ptm)
  | (name, test) :: rest => do
      let mv ← processTestDef test
      basicGo (targets ++ [Value.atom (pyQuote name)])
        (insertOrReplace ptm (pyQuote name) mv) rest

/-- `post_migrate_targets_lib.convert_basic_suite`. -/
def convert_basic_suite (suite : List (String × List (String × PyValue))) :
    Except String (List (String × Option String)) := do
  let (targets, ptm) ← basicGo [] [] suite
  .ok [("targets", Value.output (.listB targets)),
       ("per_test_modifications", Value.output (.dictB ptm))]

/-- `post_migrate_targets_lib.convert_compound_suite`. -/
def convert_compound_suite (suite : List String) :
    Except String (List (String × Option String)) := do
  let v ← convert_direct (.list (suite.map PyValue.str))
  .ok [("targets", to_output v)]

def matrixKeyMap (k : String) : Option String :=
  match k with
  | "mixins" | "variants" => some k
  | _ => Option.none

/-- The closed key set of a matrix config. -/
def matrixKeys : List String := ["mixins", "variants"]

def matrixGo (targets : List Value) :
    List (String × List (String × PyValue)) → Except String (List Value)
  | [] => .ok targets
  | (name, cfg) :: rest =>
      if cfg.isEmpty then
        matrixGo (targets ++ [Value.atom (pyQuote name)]) rest
      else do
        let ps ← schemaGo "matrix config" matrixKeyMap
                  [("targets", Value.atom (pyQuote name))] cfg
        matrixGo (targets ++ [Value.callB "targets.bundle" ps Option.none]) rest

/-- `post_migrate_targets_lib.convert_matrix_compound_suite`. -/
def convert_matrix_compound_suite (suite : List (String × List (String × PyValue))) :
    Except String (List (String × Option String)) := do
  let ts ← matrixGo [] suite
  .ok [("targets", Value.output (.listB ts))]

/-! ### Spec-side description of the matrix-compound-suite conversion

A second definition written from the specification's words, to be compared
with the translation of the source (`convert_matrix_compound_suite`): per
entry in input order, an empty matrix config appends the converted
suite-name atom directly; a non-empty config builds a `targets.bundle` call
whose parameters start with `targets = convertLiteral(suite name)` followed
by the config's `mixins`/`variants` keys converted literally, failing on
any other key with the exact unhandled-key message; the result is a mapping
with the single key `targets`. -/

def matrixSpecCfg : List (String × PyValue) → Except String (List (String × Value))
  | [] => .ok []
  | (k, v) :: rest =>
      if k = "mixins" ∨ k = "variants" then do
        let cv ← convert_direct v
        let ps ← matrixSpecCfg rest
        .ok ((k, cv) :: ps)
      else .error ("unhandled key in matrix config: \"" ++ k ++ "\"")

def matrixSpecEntry (name : String) (cfg : List (String × PyValue)) :
    Except String Value :=
  if cfg.isEmpty then .ok (.atom (pyQuote name))
  else do
    let ps ← matrixSpecCfg cfg
    .ok (.callB "targets.bundle" (("targets", Value.atom (pyQuote name)) :: ps) Option.none)

def matrixSpecEntries : List (String × List (String × PyValue)) → Except String (List Value)
  | [] => .ok []
  | (n, cfg) :: rest => do
      let v ← matrixSpecEntry n cfg
      let vs ← matrixSpecEntries rest
      .ok (v :: vs)

def convert_matrix_compound_suite_spec
    (suite : List (String × List (String × PyValue))) :
    Except String (List (String × Option String)) := do
  let ts ← matrixSpecEntries suite
  .ok [("targets", Value.output (.listB ts))]

/-! ### A parser for the target grammar's literals

Modelled from the spec: the target declarative language (starlark) is not
part of the sources; this is a recursive-descent parser for its literal
sublanguage — `None`, `True`, `False`, decimal integers with optional
leading minus, double-quoted strings with backslash-escaped quotes and no
raw newlines, bracketed lists and braced string-keyed dicts, comma
separated with optional trailing comma, arbitrary space/newline layout
between tokens. It is used to state and settle the render/re-parse
round-trip property. -/

def isDigitChar (c : Char) : Bool := 48 ≤ c.toNat && c.toNat ≤ 57

/-- Skip blanks and newlines between tokens. -/
def skipWs : List Char → List Char
  | [] => []
  | c :: rest =>
      if c = ' ' then skipWs rest
      else if c = '\n' then skipWs rest
      else c :: rest

mutual

/-- The body of a double-quoted string literal after the opening quote:
`\"` denotes one double quote, a raw newline or any other escape is
rejected, the closing quote ends the literal. -/
def parseStringBody : List Char → Option (List Char × List Char)
  | [] => Option.none
  | c :: rest =>
      if c = '"' then some ([], rest)
      else if c = '\\' then parseEscaped rest
      else if c = '\n' then Option.none
      else (parseStringBody rest).map fun p => (c :: p.1, p.2)

/-- After a backslash inside a string literal: only an escaped double quote
is accepted. -/
def parseEscaped : List Char → Option (List Char × List Char)
  | [] => Option.none
  | c :: rest =>
      if c = '"' then (parseStringBody rest).map fun p => ('"' :: p.1, p.2)
      else Option.none

end

/-- Consume a maximal run of decimal digits, accumulating their value. -/
def parseDigits : List Char → Nat → Nat × List Char
  | [], acc => (acc, [])
  | c :: rest, acc =>
      if isDigitChar c then parseDigits rest (acc * 10 + (c.toNat - 48))
      else (acc, c :: rest)

/-- Match an exact character sequence. -/
def expectChars : List Char → List Char → Option (List Char)
  | [], cs => some cs
  | _ :: _, [] => Option.none
  | p :: ps, c :: cs => if c = p then expectChars ps cs else Option.none

mutual

def parseValue : Nat → List Char → Option (PyValue × List Char)
  | 0, _ => Option.none
  | fuel + 1, cs =>
      match skipWs cs with
      | [] => Option.none
      | c :: rest =>
          if c = '"' then
            (parseStringBody rest).map fun p => (PyValue.str (String.mk p.1), p.2)
          else if c = '[' then
            (parseElems fuel rest).map fun p => (PyValue.list p.1, p.2)
          else if c = '\x7b' then
            (parsePairs fuel rest).map fun p => (PyValue.dict p.1, p.2)
          else if c = '-' then
            match rest with
            | d :: _ =>
                if isDigitChar d then
                  some (PyValue.int (-((parseDigits rest 0).1 : Int)), (parseDigits rest 0).2)
                else Option.none
            | [] => Option.none
          else if isDigitChar c then
            some (PyValue.int ((parseDigits (c :: rest) 0).1 : Int), (parseDigits (c :: rest) 0).2)
          else if c = 'N' then
            (expectChars ['o', 'n', 'e'] rest).map fun r => (PyValue.none, r)
          else if c = 'T' then
            (expectChars ['r', 'u', 'e'] rest).map fun r => (PyValue.bool true, r)
          else if c = 'F' then
            (expectChars ['a', 'l', 's', 'e'] rest).map fun r => (PyValue.bool false, r)
          else Option.none

def parseElems : Nat → List Char → Option (List PyValue × List Char)
  | 0, _ => Option.none
  | fuel + 1, cs =>
      match skipWs cs with
      | [] => Option.none
      | c :: rest =>
          if c = ']' then some ([], rest)
          else
            match parseValue fuel (c :: rest) with
            | some (v, r₁) =>
                (match skipWs r₁ with
                 | c₂ :: r₂ =>
                     if c₂ = ',' then
                       (parseElems fuel r₂).map fun p => (v :: p.1, p.2)
                     else if c₂ = ']' then some ([v], r₂)
                     else Option.none
                 | [] => Option.none)
            | Option.none => Option.none

def parsePairs : Nat → List Char → Option (List (String × PyValue) × List Char)
  | 0, _ => Option.none
  | fuel + 1, cs =>
      match skipWs cs with
      | [] => Option.none
      | c :: rest =>
          if c = '\x7d' then some ([], rest)
          else if c = '"' then
            match parseStringBody rest with
            | some (kcs, r₁) =>
                (match skipWs r₁ with
                 | c₂ :: r₂ =>
                     if c₂ = ':' then
                       match parseValue fuel r₂ with
                       | some (v, r₃) =>
                           (match skipWs r₃ with
                            | c₄ :: r₄ =>
                                if c₄ = ',' then
                                  (parsePairs fuel r₄).map fun p =>
                                    ((String.mk kcs, v) :: p.1, p.2)
                                else if c₄ = '\x7d' then some ([(String.mk kcs, v)], r₄)
                                else Option.none
                            | [] => Option.none)
                       | Option.none => Option.none
                     else Option.none
                 | [] => Option.none)
            | Option.none => Option.none
          else Option.none

end

/-- Parse one literal from a whole string, requiring only layout to
remain. -/
def parseStarlark (s : String) : Option PyValue :=
  match parseValue (s.data.length + 1) s.data with
  | some (v, rest) => if skipWs rest = [] then some v else Option.none
  | Option.none => Option.none

/-- Characters legal inside this generator's string literals: the quote
escaping handles only double quotes, so backslashes and raw newlines are
outside the round-trippable fragment. -/
def cleanChars (cs : List Char) : Bool := cs.all fun c => c != '\\' && c != '\n'

mutual

/-- A literal-convertible value whose strings (including mapping keys)
contain no backslash and no newline. -/
def cleanPy : PyValue → Bool
  | .none | .bool _ | .int _ => true
  | .str s => cleanChars s.data
  | .list es => cleanList es
  | .dict ps => cleanPairs ps
  | .other _ => false

def cleanList : List PyValue → Bool
  | [] => true
  | e :: es => cleanPy e && cleanList es

def cleanPairs : List (String × PyValue) → Bool
  | [] => true
  | (k, v) :: ps => cleanChars k.data && cleanPy v && cleanPairs ps

end

mutual

/-- Parser fuel sufficient for one value. -/
def pvFuel : PyValue → Nat
  | .list es => 1 + elemsFuel es
  | .dict ps => 1 + pairsFuel ps
  | _ => 1

def elemsFuel : List PyValue → Nat
  | [] => 1
  | e :: es => 1 + pvFuel e + elemsFuel es

def pairsFuel : List (String × PyValue) → Nat
  | [] => 1
  | (_, v) :: ps => 1 + pvFuel v + pairsFuel ps

end

/-! ### The output format grammar

Modelled from the spec: the render protocol promises rendered text with no
trailing newline, exactly two spaces of indentation per nesting level, a
trailing comma after every list element, dict pair and call parameter, and
call syntax `name(\n  param = value,\n)` with the closing delimiter two
spaces shallower than the block's children.  The mutually inductive
predicates below are that promise written as a grammar over character
lists: `FmtVal ind cs` says `cs` is a well-formatted rendered value whose
direct children (if it is a bracketed block) are indented by `ind` spaces,
with their own children at `ind + 2` and the closing delimiter at
`ind - 2`. -/

/-- Modelled from the spec: an atomic rendered text — nonempty, not
starting with a space (so a block's indentation is exactly the spaces the
format prescribes) and not ending in a newline. -/
def FmtAtom (cs : List Char) : Prop :=
  cs ≠ [] ∧ cs.head? ≠ some ' ' ∧ cs.getLast? ≠ some '\n'

mutual

/-- Modelled from the spec: a well-formatted rendered value at child
indentation `ind`. -/
inductive FmtVal : Nat → List Char → Prop where
  | atom (ind : Nat) (cs : List Char) : FmtAtom cs → FmtVal ind cs
  | listEmpty (ind : Nat) : FmtVal ind ['[', ']']
  | listNE (ind : Nat) (body : List Char) : body ≠ [] → FmtItems ind body →
      FmtVal ind ('[' :: '\n' :: (body ++ (List.replicate (ind - 2) ' ' ++ [']'])))
  | dictEmpty (ind : Nat) : FmtVal ind ['\x7b', '\x7d']
  | dictNE (ind : Nat) (body : List Char) : body ≠ [] → FmtPairs ind body →
      FmtVal ind ('\x7b' :: '\n' :: (body ++ (List.replicate (ind - 2) ' ' ++ ['\x7d'])))
  | call (ind : Nat) (t body : List Char) :
      t ≠ [] → (∀ c ∈ t, c ≠ ' ' ∧ c ≠ '\n') → FmtParams ind body →
      FmtVal ind (t ++ ('(' :: '\n' :: (body ++ (List.replicate (ind - 2) ' ' ++ [')']))))

/-- Modelled from the spec: a run of list elements, each on its own line
block — exactly `ind` spaces, the element rendered at child indentation
`ind + 2`, then a comma and a newline. -/
inductive FmtItems : Nat → List Char → Prop where
  | nil (ind : Nat) : FmtItems ind []
  | cons (ind : Nat) (v rest : List Char) : FmtVal (ind + 2) v → FmtItems ind rest →
      FmtItems ind (List.replicate ind ' ' ++ (v ++ (',' :: '\n' :: rest)))

/-- Modelled from the spec: a run of dict pairs `key: value` with a
trailing comma after every pair. -/
inductive FmtPairs : Nat → List Char → Prop where
  | nil (ind : Nat) : FmtPairs ind []
  | cons (ind : Nat) (k v rest : List Char) : FmtAtom k → FmtVal (ind + 2) v →
      FmtPairs ind rest →
      FmtPairs ind (List.replicate ind ' ' ++ (k ++ (':' :: ' ' ::
        (v ++ (',' :: '\n' :: rest)))))

/-- Modelled from the spec: a run of call parameters `name = value` with a
trailing comma after every parameter. -/
inductive FmtParams : Nat → List Char → Prop where
  | nil (ind : Nat) : FmtParams ind []
  | cons (ind : Nat) (p v rest : List Char) : FmtAtom p → FmtVal (ind + 2) v →
      FmtParams ind rest →
      FmtParams ind (List.replicate ind ' ' ++ (p ++ (' ' :: '=' :: ' ' ::
        (v ++ (',' :: '\n' :: rest)))))

end

/-- The decidable side of `FmtAtom`: every atom text the converters emit
satisfies it. -/
def goodAtom (s : String) : Bool :=
  !s.data.isEmpty && s.data.head? != some ' ' && s.data.getLast? != some '\n'

/-- A call-target name: nonempty and free of spaces and newlines. -/
def goodName (s : String) : Bool :=
  !s.data.isEmpty && s.data.all fun c => c != ' ' && c != '\n'

mutual

/-- Every atom, dict key and call-target name inside the value is
acceptable to the format grammar. -/
def goodVal : Value → Bool
  | .atom s => goodAtom s
  | .listB es => goodValList es
  | .dictB ps => goodValPairs ps
  | .callB t ps _ => goodName t && goodValPairs ps

def goodValList : List Value → Bool
  | [] => true
  | v :: rest => goodVal v && goodValList rest

def goodValPairs : List (String × Value) → Bool
  | [] => true
  | (k, v) :: rest => goodAtom k && goodVal v && goodValPairs rest

end

mutual

/-- Structural size of a builder value, to drive induction over the
renderer. -/
def vSize : Value → Nat
  | .atom _ => 1
  | .listB es => 1 + vlSize es
  | .dictB ps => 1 + vpSize ps
  | .callB _ ps _ => 1 + vpSize ps

def vlSize : List Value → Nat
  | [] => 0
  | v :: rest => 1 + vSize v + vlSize rest

def vpSize : List (String × Value) → Nat
  | [] => 0
  | (_, v) :: rest => 1 + vSize v + vpSize rest

end

/-- The grammar-relevant invariant of the per-test walking state: every
builder fragment accumulated so far is grammar-acceptable. -/
def goodState (st : TestState) : Bool :=
  goodValPairs st.anonParams &&
  (match st.mixinsNamed with
   | some l => goodValList l
   | Option.none => true) &&
  goodValPairs st.modParams

/-! ### Model validation

The embedding reproduces, byte for byte, every expected output recorded in
the repository's unit tests (`starlark_conversions_test.py` and
`post_migrate_targets_lib_test.py`). -/

example : (convert_arg "foo").map to_output = .ok (some "\"foo\"") := by
  simp [convert_arg, pyStartsWith, List.isPrefixOf, convert_direct, pyQuote, escapeQuotes,
    Except.map, to_output, Value.output, isEmptyCall, render]

example : (convert_arg "$$MAGIC_SUBSTITUTION_AndroidDesktopTelemetryRemote").map to_output
    = .ok (some "targets.magic_args.ANDROID_DESKTOP_TELEMETRY_REMOTE") := by
  simp [convert_arg, pyStartsWith, List.isPrefixOf, MAGIC_ARG_MAPPING,
    Except.map, to_output, Value.output, isEmptyCall, render]

example : (convert_args (.list [.str "foo", .str "$$MAGIC_SUBSTITUTION_AndroidDesktopTelemetryRemote"])).map to_output
    = .ok (some "[\n  \"foo\",\n  targets.magic_args.ANDROID_DESKTOP_TELEMETRY_REMOTE,\n]") := by
  simp [convert_args, pyIter, convertArgList, convertOneArg, convert_arg, pyStartsWith,
    List.isPrefixOf, MAGIC_ARG_MAPPING, convert_direct, pyQuote, escapeQuotes,
    Except.map, to_output, Value.output, isEmptyCall, render, renderItems, spaces,
    bind, Except.bind, pure, Except.pure]

example : convert_direct (.other "set()") = .error "unhandled python value: set()" := by
  simp [convert_direct]

example : (convert_direct .none).map to_output = .ok (some "None") := by
  simp [convert_direct, Except.map, to_output, Value.output, isEmptyCall, render]

example : (convert_direct (.int 1)).map to_output = .ok (some "1") := by
  simp [convert_direct, pyIntStr, natDigsAux, digitChar, Except.map, to_output, Value.output, isEmptyCall, render]

example : (convert_direct (.bool true)).map to_output = .ok (some "True") := by
  simp [convert_direct, Except.map, to_output, Value.output, isEmptyCall, render]

example : (convert_direct (.str "foo")).map to_output = .ok (some "\"foo\"") := by
  simp [convert_direct, pyQuote, escapeQuotes, Except.map, to_output, Value.output, isEmptyCall, render]

example : (convert_direct (.str "\"foo\"")).map to_output = .ok (some "\"\\\"foo\\\"\"") := by
  simp [convert_direct, pyQuote, escapeQuotes, Except.map, to_output, Value.output, isEmptyCall, render]

example : (convert_direct (.list [.str "foo", .str "bar"])).map to_output
    = .ok (some "[\n  \"foo\",\n  \"bar\",\n]") := by
  simp [convert_direct, convertDirectList, pyQuote, escapeQuotes, Except.map, to_output,
    Value.output, isEmptyCall, render, renderItems, spaces, bind, Except.bind, pure, Except.pure]

example : (convert_direct (.dict [("foo", .str "bar")])).map to_output
    = .ok (some "\x7b\n  \"foo\": \"bar\",\n\x7d") := by
  simp [convert_direct, convertDirectPairs, pyQuote, escapeQuotes, Except.map, to_output,
    Value.output, isEmptyCall, render, renderPairs, spaces, bind, Except.bind, pure, Except.pure]

example : convert_resultdb [("unhandled", .bool true)]
    = .error "unhandled key in resultdb: \"unhandled\"" := by
  simp [convert_resultdb, schemaGo, resultdbKeyMap, bind, Except.bind]

example : (convert_resultdb [("enable", .bool true)]).map to_output
    = .ok (some "targets.resultdb(\n  enable = True,\n)") := by
  simp [convert_resultdb, schemaGo, resultdbKeyMap, insertOrReplace, convert_direct,
    Except.map, to_output, Value.output, isEmptyCall, render, renderParams, spaces,
    bind, Except.bind, pure, Except.pure]

example : convert_swarming [("unhandled", .bool true)]
    = .error "unhandled key in swarming: \"unhandled\"" := by
  simp [convert_swarming, schemaGo, swarmingKeyMap, bind, Except.bind]

example : (convert_swarming
      [("shards", .int 2), ("hard_timeout", .int 60), ("io_timeout", .int 30),
       ("expiration", .int 120), ("idempotent", .bool true),
       ("service_account", .str "account"),
       ("dimensions", .dict [("pool", .str "default")])]).map to_output
    = .ok (some ("targets.swarming(\n  shards = 2,\n  hard_timeout_sec = 60,\n"
        ++ "  io_timeout_sec = 30,\n  expiration_sec = 120,\n  idempotent = True,\n"
        ++ "  service_account = \"account\",\n  dimensions = \x7b\n    \"pool\": \"default\",\n  \x7d,\n)")) := by
  simp [convert_swarming, schemaGo, swarmingKeyMap, insertOrReplace, convert_direct,
    convertDirectPairs, pyQuote, escapeQuotes, pyIntStr, natDigsAux, digitChar,
    Except.map, to_output, Value.output, isEmptyCall, render, renderParams, renderPairs, spaces,
    bind, Except.bind, pure, Except.pure]

example : convert_skylab [("unhandled", .bool true)]
    = .error "unhandled key in skylab: \"unhandled\"" := by
  simp [convert_skylab, schemaGo, skylabKeyMap, bind, Except.bind]

example : (convert_skylab [("shards", .int 2), ("timeout_sec", .int 60)]).map to_output
    = .ok (some "targets.skylab(\n  shards = 2,\n  timeout_sec = 60,\n)") := by
  simp [convert_skylab, schemaGo, skylabKeyMap, insertOrReplace, convert_direct,
    pyIntStr, natDigsAux, digitChar, Except.map, to_output, Value.output, isEmptyCall, render, renderParams, spaces,
    bind, Except.bind, pure, Except.pure]

example : convert_basic_suite [("test1", [("unhandled_key", .str "value")])]
    = .error "unhandled key in basic suite test definition: \"unhandled_key\"" := by
  simp [convert_basic_suite, basicGo, processTestDef, processTestKeys, processTestKey,
    basicKeyAction, initTestState, bind, Except.bind, pure, Except.pure]

example : convert_basic_suite
      [("test1", [("script", .str "test1.py"), ("args", .list [.str "--arg1"]),
                  ("swarming", .dict [("shards", .int 2)])]),
       ("test2", [("test", .str "test2_test"), ("mixins", .list [.str "mixin1"]),
                  ("remove_mixins", .list [.str "mixin2"])]),
       ("test3", [("ci_only", .bool true), ("experiment_percentage", .int 50),
                  ("use_isolated_scripts_api", .bool false),
                  ("android_args", .list [.str "--android-arg"]),
                  ("resultdb", .dict [("enable", .bool false)]),
                  ("android_swarming", .dict [("shards", .int 4)]),
                  ("skylab", .dict [("shards", .int 4)]),
                  ("telemetry_test_name", .str "telemetry_test")])]
    = .ok [("targets", some "[\n  \"test1\",\n  \"test2\",\n  \"test3\",\n]"),
           ("per_test_modifications", some "\x7b\n  \"test1\": targets.mixin(\n    args = [\n      \"--arg1\",\n    ],\n    swarming = targets.swarming(\n      shards = 2,\n    ),\n  ),\n  \"test2\": targets.per_test_modification(\n    remove_mixins = [\n      \"DO NOT SUBMIT ensure all remove mixins values are present\",\n      \"mixin2\",\n    ],\n    mixins = [\n      \"mixin1\",\n    ],\n  ),\n  \"test3\": targets.mixin(\n    ci_only = True,\n    experiment_percentage = 50,\n    use_isolated_scripts_api = False,\n    android_args = [\n      \"--android-arg\",\n    ],\n    resultdb = targets.resultdb(\n      enable = False,\n    ),\n    android_swarming = targets.swarming(\n      shards = 4,\n    ),\n    skylab = targets.skylab(\n      shards = 4,\n    ),\n  ),\n\x7d")] := by
  simp [convert_basic_suite, basicGo, processTestDef, processTestKeys, processTestKey,
    basicKeyAction, initTestState, convert_args, convertArgList, convertOneArg, convert_arg,
    pyStartsWith, List.isPrefixOf, pyIter, pyItems,
    convert_swarming, convert_resultdb, convert_skylab, schemaGo,
    swarmingKeyMap, resultdbKeyMap, skylabKeyMap, insertOrReplace,
    convert_direct, convertDirectList, convertDirectPairs, pyQuote, escapeQuotes, pyIntStr,
    natDigsAux, digitChar, removeMixinsSentinel,
    Value.output, isEmptyCall, render, renderItems, renderPairs, renderParams, spaces,
    bind, Except.bind, pure, Except.pure]

example : convert_compound_suite ["suite1", "suite2"]
    = .ok [("targets", some "[\n  \"suite1\",\n  \"suite2\",\n]")] := by
  simp [convert_compound_suite, convert_direct, convertDirectList, pyQuote, escapeQuotes,
    Except.map, to_output, Value.output, isEmptyCall, render, renderItems, spaces,
    bind, Except.bind, pure, Except.pure]

example : convert_matrix_compound_suite [("suite1", [("unhandled_key", .str "value")])]
    = .error "unhandled key in matrix config: \"unhandled_key\"" := by
  simp [convert_matrix_compound_suite, matrixGo, schemaGo, matrixKeyMap,
    bind, Except.bind, pure, Except.pure]

example : convert_matrix_compound_suite
      [("suite1", []),
       ("suite2", [("mixins", .list [.str "mixin1"]), ("variants", .list [.str "variant1"])])]
    = .ok [("targets", some ("[\n  \"suite1\",\n  targets.bundle(\n    targets = \"suite2\",\n"
        ++ "    mixins = [\n      \"mixin1\",\n    ],\n    variants = [\n      \"variant1\",\n    ],\n  ),\n]"))] := by
  simp [convert_matrix_compound_suite, matrixGo, schemaGo, matrixKeyMap, insertOrReplace,
    convert_direct, convertDirectList, pyQuote, escapeQuotes,
    Value.output, isEmptyCall, render, renderItems, renderParams, spaces,
    bind, Except.bind, pure, Except.pure]

/-! ### Helper lemmas about the schema walker and the test-definition loop -/

theorem resultdbKeyMap_eq_none_iff (k : String) :
    resultdbKeyMap k = Option.none ↔ k ∉ resultdbKeys := by
  unfold resultdbKeyMap
  split
  · simp_all [resultdbKeys]
  · simp_all [resultdbKeys]
theorem swarmingKeyMap_eq_none_iff (k : String) :
    swarmingKeyMap k = Option.none ↔ k ∉ swarmingKeys := by
  unfold swarmingKeyMap
  split <;> simp_all [swarmingKeys]
theorem skylabKeyMap_eq_none_iff (k : String) :
    skylabKeyMap k = Option.none ↔ k ∉ skylabKeys := by
  unfold skylabKeyMap
  split <;> simp_all [skylabKeys]
theorem basicKeyAction_eq_none_iff (k : String) :
    basicKeyAction k = Option.none ↔ k ∉ basicSuiteKeys := by
  unfold basicKeyAction
  split <;> simp_all [basicSuiteKeys]
theorem matrixKeyMap_eq_none_iff (k : String) :
    matrixKeyMap k = Option.none ↔ k ∉ matrixKeys := by
  unfold matrixKeyMap
  split <;> simp_all [matrixKeys]

theorem schemaGo_ok_keys (schema : String) (km : String → Option String) :
    ∀ (l : List (String × PyValue)) (acc res : List (String × Value)),
      schemaGo schema km acc l = .ok res →
      ∀ k ∈ l.map Prod.fst, km k ≠ Option.none := by
  intro l
  induction l with
  | nil => simp
  | cons p rest ih =>
      obtain ⟨k, v⟩ := p
      intro acc res h k' hk'
      simp only [List.map_cons, List.mem_cons] at hk'
      simp only [schemaGo] at h
      rcases hk : km k with _ | out <;> rw [hk] at h
      · simp at h
      · rcases hc : convert_direct v with e | cv <;> rw [hc] at h <;>
          simp only [bind, Except.bind] at h
        · simp at h
        · rcases hk' with rfl | hk'
          · simp [hk]
          · exact ih (insertOrReplace acc out cv) res h k' hk'

theorem schemaGo_unknown_key_fails (schema : String) (km : String → Option String)
    (l : List (String × PyValue)) (acc : List (String × Value))
    (h : ∃ k ∈ l.map Prod.fst, km k = Option.none) :
    ∃ e, schemaGo schema km acc l = .error e := by
  rcases hres : schemaGo schema km acc l with e | res
  · exact ⟨e, rfl⟩
  · obtain ⟨k, hk, hnone⟩ := h
    exact absurd hnone (schemaGo_ok_keys schema km l acc res hres k hk)

theorem schemaGo_first_unknown (schema : String) (km : String → Option String) :
    ∀ (l₁ : List (String × PyValue)) (k : String) (v : PyValue)
      (l₂ : List (String × PyValue)) (acc acc' : List (String × Value)),
      schemaGo schema km acc l₁ = .ok acc' → km k = Option.none →
      schemaGo schema km acc (l₁ ++ (k, v) :: l₂)
        = .error ("unhandled key in " ++ schema ++ ": \"" ++ k ++ "\"") := by
  intro l₁
  induction l₁ with
  | nil =>
      intro k v l₂ acc acc' _ hk
      simp only [List.nil_append, schemaGo, hk]
  | cons p rest ih =>
      obtain ⟨k₀, v₀⟩ := p
      intro k v l₂ acc acc' h hk
      simp only [schemaGo, List.cons_append] at h ⊢
      rcases hk₀ : km k₀ with _ | out <;> rw [hk₀] at h
      · simp at h
      · rcases hc : convert_direct v₀ with e | cv <;> rw [hc] at h <;>
          simp only [bind, Except.bind] at h ⊢
        · simp at h
        · exact ih k v l₂ (insertOrReplace acc out cv) acc' h hk

theorem processTestKey_ok_action {st st' : TestState} {k : String} {v : PyValue}
    (h : processTestKey st k v = .ok st') : basicKeyAction k ≠ Option.none := by
  intro hnone
  simp only [processTestKey, hnone] at h
  exact absurd h (by simp)

theorem processTestKey_anonParams_eq {st st' : TestState} {k : String} {v : PyValue}
    (hk : anonFeedingKey k = false)
    (h : processTestKey st k v = .ok st') : st'.anonParams = st.anonParams := by
  simp only [anonFeedingKey] at hk
  simp only [processTestKey] at h
  rcases hact : basicKeyAction k with _ | act <;> rw [hact] at h hk
  · simp at h
  · cases act with
    | ignore =>
        simp only [Except.ok.injEq] at h
        rw [← h]
    | anon out conv => simp at hk
    | mixins =>
        rcases h₁ : pyIter v with e | es <;> rw [h₁] at h <;>
          simp only [bind, Except.bind] at h
        · simp at h
        · rcases h₂ : convertDirectList es with e | cs <;> rw [h₂] at h
          · simp at h
          · simp only [Except.ok.injEq] at h
            rw [← h]
    | removeMixins =>
        rcases h₁ : pyIter v with e | es <;> rw [h₁] at h <;>
          simp only [bind, Except.bind] at h
        · simp at h
        · rcases h₂ : convertDirectList es with e | cs <;> rw [h₂] at h
          · simp at h
          · simp only [Except.ok.injEq] at h
            rw [← h]

theorem processTestKeys_ok_keys :
    ∀ (l : List (String × PyValue)) (st st' : TestState),
      processTestKeys st l = .ok st' →
      ∀ k ∈ l.map Prod.fst, basicKeyAction k ≠ Option.none := by
  intro l
  induction l with
  | nil => simp
  | cons p rest ih =>
      obtain ⟨k, v⟩ := p
      intro st st' h k' hk'
      simp only [List.map_cons, List.mem_cons] at hk'
      simp only [processTestKeys] at h
      rcases h₁ : processTestKey st k v with e | st₁ <;> rw [h₁] at h <;>
        simp only [bind, Except.bind] at h
      · simp at h
      · rcases hk' with rfl | hk'
        · exact processTestKey_ok_action h₁
        · exact ih st₁ st' h k' hk'

theorem processTestKeys_unknown_key_fails (l : List (String × PyValue)) (st : TestState)
    (h : ∃ k ∈ l.map Prod.fst, basicKeyAction k = Option.none) :
    ∃ e, processTestKeys st l = .error e := by
  rcases hres : processTestKeys st l with e | st'
  · exact ⟨e, rfl⟩
  · obtain ⟨k, hk, hnone⟩ := h
    exact absurd hnone (processTestKeys_ok_keys l st st' hres k hk)

theorem processTestKeys_first_unknown :
    ∀ (l₁ : List (String × PyValue)) (k : String) (v : PyValue)
      (l₂ : List (String × PyValue)) (st st' : TestState),
      processTestKeys st l₁ = .ok st' → basicKeyAction k = Option.none →
      processTestKeys st (l₁ ++ (k, v) :: l₂)
        = .error ("unhandled key in basic suite test definition: \"" ++ k ++ "\"") := by
  intro l₁
  induction l₁ with
  | nil =>
      intro k v l₂ st st' _ hk
      simp only [List.nil_append, processTestKeys, processTestKey, hk, bind, Except.bind]
  | cons p rest ih =>
      obtain ⟨k₀, v₀⟩ := p
      intro k v l₂ st st' h hk
      simp only [processTestKeys, List.cons_append] at h ⊢
      rcases h₁ : processTestKey st k₀ v₀ with e | st₁ <;> rw [h₁] at h <;>
        simp only [bind, Except.bind] at h ⊢
      · simp at h
      · exact ih k v l₂ st₁ st' h hk

/-! ### Claims -/

/-- C1: Elision law: a call builder constructed with elision parameter `P`
renders, when exactly one parameter is assigned and its name equals `P`,
identically to rendering `P`'s value alone (the call wrapper and parameter
name are dropped), and with a second parameter assigned, in either
assignment order, as the full wrapper call containing both parameters in
their assignment order (stated for parameter values that produce output). -/
theorem C1_elision_law :
    (∀ (ind : Nat) (t P : String) (v : Value),
        render ind (Value.callB t [(P, v)] (some P)) = render ind v ∧
        (Value.callB t [(P, v)] (some P)).output = v.output) ∧
    (∀ (ind : Nat) (t P q : String) (va vb : Value),
        isEmptyCall va = false → isEmptyCall vb = false →
        render ind (Value.callB t [(P, va), (q, vb)] (some P)) =
          t ++ "(\n" ++ (spaces ind ++ P ++ " = " ++ render (ind + 2) va ++ ",\n")
            ++ (spaces ind ++ q ++ " = " ++ render (ind + 2) vb ++ ",\n")
            ++ spaces (ind - 2) ++ ")" ∧
        render ind (Value.callB t [(q, vb), (P, va)] (some P)) =
          t ++ "(\n" ++ (spaces ind ++ q ++ " = " ++ render (ind + 2) vb ++ ",\n")
            ++ (spaces ind ++ P ++ " = " ++ render (ind + 2) va ++ ",\n")
            ++ spaces (ind - 2) ++ ")") := by
  constructor
  · intro ind t P v
    constructor
    · simp [render]
    · simp [Value.output, isEmptyCall, render]
  · intro ind t P q va vb ha hb
    constructor <;> simp [render, renderParams, ha, hb, String.append_assoc]

/-- Witness for C1 at concrete inputs. -/
theorem C1_elision_law_witness :
    isEmptyCall (Value.atom "m") = false ∧
    isEmptyCall (Value.atom "[]") = false ∧
    render 2 (Value.callB "targets.per_test_modification"
        [("remove_mixins", Value.atom "[]"), ("mixins", Value.atom "m")] (some "mixins"))
      = "targets.per_test_modification(\n  remove_mixins = [],\n  mixins = m,\n)" := by
  refine ⟨by simp [isEmptyCall], by simp [isEmptyCall], ?_⟩
  have h := (C1_elision_law.2 2 "targets.per_test_modification" "mixins" "remove_mixins"
    (Value.atom "m") (Value.atom "[]") (by simp [isEmptyCall]) (by simp [isEmptyCall])).2
  rw [h]
  simp [render, spaces]

/-- C4: the literal converter maps every string to that string wrapped in
double quotes with every embedded double quote backslash-escaped and no
other character altered, and fails on any value that is not
null/bool/int/string/sequence/mapping with an error carrying the value's
debug representation. -/
theorem C4_convert_direct_string_and_unsupported :
    (∀ s : String,
        convert_direct (.str s)
          = .ok (.atom ("\"" ++ String.mk (escapeQuotes s.data) ++ "\""))) ∧
    (∀ cs : List Char,
        escapeQuotes cs = cs.flatMap fun c => if c = '"' then ['\\', '"'] else [c]) ∧
    (∀ rep : String,
        convert_direct (.other rep) = .error ("unhandled python value: " ++ rep)) := by
  refine ⟨fun s => by simp [convert_direct, pyQuote], fun cs => ?_,
    fun rep => by simp [convert_direct]⟩
  induction cs with
  | nil => simp [escapeQuotes]
  | cons c rest ih =>
      by_cases hc : c = '"' <;> simp [escapeQuotes, hc, ih]

/-- C5: the argument converter returns the table's symbolic constant atom
for every magic-substitution-prefixed string in the closed table, fails
with a lookup error for every magic-substitution-prefixed string outside
the table, and falls back to `convert_direct` on every other string. -/
theorem C5_convert_arg_magic :
    (∀ arg name, pyStartsWith arg "$$MAGIC_SUBSTITUTION_" = true →
        MAGIC_ARG_MAPPING.lookup arg = some name →
        convert_arg arg = .ok (.atom ("targets.magic_args." ++ name))) ∧
    (∀ arg, pyStartsWith arg "$$MAGIC_SUBSTITUTION_" = true →
        MAGIC_ARG_MAPPING.lookup arg = Option.none →
        convert_arg arg = .error ("KeyError: " ++ arg)) ∧
    (∀ arg, pyStartsWith arg "$$MAGIC_SUBSTITUTION_" = false →
        convert_arg arg = convert_direct (.str arg)) := by
  refine ⟨fun arg name hpre hlook => ?_, fun arg hpre hlook => ?_, fun arg hpre => ?_⟩
  · simp [convert_arg, hpre, hlook]
  · simp [convert_arg, hpre, hlook]
  · simp [convert_arg, hpre]

/-- Witness for C5 at concrete inputs: a known sentinel, an unknown
sentinel, and a plain argument. -/
theorem C5_convert_arg_magic_witness :
    convert_arg "$$MAGIC_SUBSTITUTION_GPUParallelJobs"
        = .ok (.atom "targets.magic_args.GPU_PARALLEL_JOBS") ∧
    convert_arg "$$MAGIC_SUBSTITUTION_DoesNotExist"
        = .error "KeyError: $$MAGIC_SUBSTITUTION_DoesNotExist" ∧
    convert_arg "--enable-features" = convert_direct (.str "--enable-features") :=
  ⟨C5_convert_arg_magic.1 "$$MAGIC_SUBSTITUTION_GPUParallelJobs" "GPU_PARALLEL_JOBS"
      (by decide) (by decide),
   C5_convert_arg_magic.2.1 "$$MAGIC_SUBSTITUTION_DoesNotExist" (by decide) (by decide),
   C5_convert_arg_magic.2.2 "--enable-features" (by decide)⟩

/-- C6: the value assigned to the per-test-modification builder's
`remove_mixins` parameter is always a list whose first element is the fixed
guard-sentinel literal string, followed by the literal conversion of each
named mixin in input order, for input lists of any length including
zero. -/
theorem C6_remove_mixins_guard_sentinel :
    ∀ (st : TestState) (ms : List PyValue) (cs : List Value),
      convertDirectList ms = .ok cs →
      processTestKey st "remove_mixins" (.list ms)
        = .ok { st with modParams :=
                  (insertOrReplace st.modParams "remove_mixins"
                    (Value.listB (Value.atom removeMixinsSentinel :: cs))) } := by
  intro st ms cs h
  simp [processTestKey, basicKeyAction, pyIter, h, bind, Except.bind]

/-- Witness for C6: the empty removal list and a two-element removal
list. -/
theorem C6_remove_mixins_guard_sentinel_witness :
    processTestKey initTestState "remove_mixins" (.list [])
        = .ok { initTestState with modParams :=
                  [("remove_mixins", Value.listB [Value.atom removeMixinsSentinel])] } ∧
    processTestKey initTestState "remove_mixins" (.list [.str "m2", .str "m3"])
        = .ok { initTestState with modParams :=
                  [("remove_mixins", Value.listB
                      [Value.atom removeMixinsSentinel,
                       Value.atom "\"m2\"", Value.atom "\"m3\""])] } := by
  constructor
  · have h := C6_remove_mixins_guard_sentinel initTestState [] []
      (by simp [convertDirectList])
    simpa [initTestState, insertOrReplace] using h
  · have h := C6_remove_mixins_guard_sentinel initTestState [.str "m2", .str "m3"]
      [Value.atom "\"m2\"", Value.atom "\"m3\""]
      (by simp [convertDirectList, convert_direct, pyQuote, escapeQuotes,
        bind, Except.bind, pure, Except.pure])
    simpa [initTestState, insertOrReplace] using h

/-- C10: a test definition that routes no key into the anonymous mixin
builder leaves that builder with zero parameters, and an empty
`targets.mixin` call contributes no element to a rendered list: the
explicit mixins list renders exactly as the list of converted named mixins
alone. -/
theorem C10_empty_anonymous_mixin_elided :
    (∀ (test : List (String × PyValue)) (st : TestState),
        (∀ k ∈ test.map Prod.fst, anonFeedingKey k = false) →
        processTestKeys initTestState test = .ok st →
        st.anonParams = []) ∧
    (∀ (ind : Nat) (named : List Value),
        render ind (Value.listB (Value.callB "targets.mixin" [] Option.none :: named))
          = render ind (Value.listB named) ∧
        (Value.listB (Value.callB "targets.mixin" [] Option.none :: named)).output
          = (Value.listB named).output) := by
  constructor
  · have aux : ∀ (test : List (String × PyValue)) (st₀ st : TestState),
        (∀ k ∈ test.map Prod.fst, anonFeedingKey k = false) →
        processTestKeys st₀ test = .ok st →
        st.anonParams = st₀.anonParams := by
      intro test
      induction test with
      | nil =>
          intro st₀ st _ h
          simp only [processTestKeys, Except.ok.injEq] at h
          rw [← h]
      | cons p rest ih =>
          obtain ⟨k, v⟩ := p
          intro st₀ st hkeys h
          simp only [processTestKeys] at h
          rcases h₁ : processTestKey st₀ k v with e | st₁ <;> rw [h₁] at h <;>
            simp only [bind, Except.bind] at h
          · simp at h
          · have hk : anonFeedingKey k = false := hkeys k (by simp)
            have h₂ := processTestKey_anonParams_eq hk h₁
            have h₃ := ih st₁ st (fun k' hk' => hkeys k' (by simp [hk'])) h
            rw [h₃, h₂]
    intro test st hkeys h
    exact aux test initTestState st hkeys h
  · intro ind named
    constructor
    · simp [render, renderItems, isEmptyCall]
    · simp [Value.output, render, renderItems, isEmptyCall]

/-- Witness for C10: a test definition with only an ignored key and named
mixins leaves the anonymous builder empty, and its mixins list renders
without an element for it. -/
theorem C10_empty_anonymous_mixin_elided_witness :
    processTestKeys initTestState
        [("script", PyValue.str "t.py"), ("mixins", PyValue.list [PyValue.str "m1"])]
      = .ok { anonParams := [], mixinsNamed := some [Value.atom "\"m1\""], modParams := [] } ∧
    ({ anonParams := [], mixinsNamed := some [Value.atom "\"m1\""],
       modParams := [] } : TestState).anonParams = [] ∧
    render 2 (Value.listB [Value.callB "targets.mixin" [] Option.none, Value.atom "\"m1\""])
      = render 2 (Value.listB [Value.atom "\"m1\""]) := by
  have hrun : processTestKeys initTestState
      [("script", PyValue.str "t.py"), ("mixins", PyValue.list [PyValue.str "m1"])]
      = .ok { anonParams := [], mixinsNamed := some [Value.atom "\"m1\""], modParams := [] } := by
    simp [processTestKeys, processTestKey, basicKeyAction, initTestState, pyIter,
      convertDirectList, convert_direct, pyQuote, escapeQuotes, bind, Except.bind,
      pure, Except.pure]
  refine ⟨hrun, ?_, (C10_empty_anonymous_mixin_elided.2 2 [Value.atom "\"m1\""]).1⟩
  exact C10_empty_anonymous_mixin_elided.1 _ _ (by decide) hrun

/-- C2, counterexample: the claim "the conversion fails if and only if the
mapping contains a key outside the schema's closed key set" is false in the
only-if direction: a resultdb mapping whose sole key `enable` is inside the
closed set still fails when its value is unconvertible (a Python set). -/
theorem C2_counterexample_value_failure :
    (∀ k ∈ ([("enable", PyValue.other "set()")] :
        List (String × PyValue)).map Prod.fst, k ∈ resultdbKeys) ∧
    convert_resultdb [("enable", PyValue.other "set()")]
      = .error "unhandled python value: set()" := by
  refine ⟨by decide, ?_⟩
  simp [convert_resultdb, schemaGo, resultdbKeyMap, convert_direct, bind, Except.bind]

/-- C2, amended: for each of the five schema dispatches, a successful
conversion implies every key lies in the schema's closed key set; a mapping
containing a key outside the set always fails; and when every pair before
the first unrecognized key converts successfully, the conversion aborts
there with the error message exactly
`unhandled key in <schema name>: "<key>"`. -/
theorem C2_unhandled_key_exact_message :
    ((∀ (m : List (String × PyValue)) (val : Value),
        convert_resultdb m = .ok val → ∀ k ∈ m.map Prod.fst, k ∈ resultdbKeys) ∧
     (∀ m : List (String × PyValue), (∃ k ∈ m.map Prod.fst, k ∉ resultdbKeys) →
        ∃ e, convert_resultdb m = .error e) ∧
     (∀ (m₁ : List (String × PyValue)) (k : String) (v : PyValue)
        (m₂ : List (String × PyValue)) (acc' : List (String × Value)),
        k ∉ resultdbKeys → schemaGo "resultdb" resultdbKeyMap [] m₁ = .ok acc' →
        convert_resultdb (m₁ ++ (k, v) :: m₂)
          = .error ("unhandled key in resultdb: \"" ++ k ++ "\""))) ∧
    ((∀ (m : List (String × PyValue)) (val : Value),
        convert_swarming m = .ok val → ∀ k ∈ m.map Prod.fst, k ∈ swarmingKeys) ∧
     (∀ m : List (String × PyValue), (∃ k ∈ m.map Prod.fst, k ∉ swarmingKeys) →
        ∃ e, convert_swarming m = .error e) ∧
     (∀ (m₁ : List (String × PyValue)) (k : String) (v : PyValue)
        (m₂ : List (String × PyValue)) (acc' : List (String × Value)),
        k ∉ swarmingKeys → schemaGo "swarming" swarmingKeyMap [] m₁ = .ok acc' →
        convert_swarming (m₁ ++ (k, v) :: m₂)
          = .error ("unhandled key in swarming: \"" ++ k ++ "\""))) ∧
    ((∀ (m : List (String × PyValue)) (val : Value),
        convert_skylab m = .ok val → ∀ k ∈ m.map Prod.fst, k ∈ skylabKeys) ∧
     (∀ m : List (String × PyValue), (∃ k ∈ m.map Prod.fst, k ∉ skylabKeys) →
        ∃ e, convert_skylab m = .error e) ∧
     (∀ (m₁ : List (String × PyValue)) (k : String) (v : PyValue)
        (m₂ : List (String × PyValue)) (acc' : List (String × Value)),
        k ∉ skylabKeys → schemaGo "skylab" skylabKeyMap [] m₁ = .ok acc' →
        convert_skylab (m₁ ++ (k, v) :: m₂)
          = .error ("unhandled key in skylab: \"" ++ k ++ "\""))) ∧
    ((∀ (test : List (String × PyValue)) (st : TestState),
        processTestKeys initTestState test = .ok st →
        ∀ k ∈ test.map Prod.fst, k ∈ basicSuiteKeys) ∧
     (∀ test : List (String × PyValue), (∃ k ∈ test.map Prod.fst, k ∉ basicSuiteKeys) →
        ∃ e, processTestKeys initTestState test = .error e) ∧
     (∀ (t₁ : List (String × PyValue)) (k : String) (v : PyValue)
        (t₂ : List (String × PyValue)) (st : TestState),
        k ∉ basicSuiteKeys → processTestKeys initTestState t₁ = .ok st →
        processTestKeys initTestState (t₁ ++ (k, v) :: t₂)
          = .error ("unhandled key in basic suite test definition: \"" ++ k ++ "\""))) ∧
    ((∀ (seed : List (String × Value)) (cfg : List (String × PyValue))
        (res : List (String × Value)),
        schemaGo "matrix config" matrixKeyMap seed cfg = .ok res →
        ∀ k ∈ cfg.map Prod.fst, k ∈ matrixKeys) ∧
     (∀ (seed : List (String × Value)) (cfg : List (String × PyValue)),
        (∃ k ∈ cfg.map Prod.fst, k ∉ matrixKeys) →
        ∃ e, schemaGo "matrix config" matrixKeyMap seed cfg = .error e) ∧
     (∀ (seed : List (String × Value)) (c₁ : List (String × PyValue)) (k : String)
        (v : PyValue) (c₂ : List (String × PyValue)) (acc' : List (String × Value)),
        k ∉ matrixKeys → schemaGo "matrix config" matrixKeyMap seed c₁ = .ok acc' →
        schemaGo "matrix config" matrixKeyMap seed (c₁ ++ (k, v) :: c₂)
          = .error ("unhandled key in matrix config: \"" ++ k ++ "\""))) := by
  refine ⟨⟨?_, ?_, ?_⟩, ⟨?_, ?_, ?_⟩, ⟨?_, ?_, ?_⟩, ⟨?_, ?_, ?_⟩, ⟨?_, ?_, ?_⟩⟩
  · intro m val h k hk
    rcases hs : schemaGo "resultdb" resultdbKeyMap [] m with e | ps
    · simp only [convert_resultdb, hs, bind, Except.bind] at h
      exact absurd h (by simp)
    · by_contra hmem
      exact schemaGo_ok_keys _ _ m [] ps hs k hk ((resultdbKeyMap_eq_none_iff k).2 hmem)
  · intro m ⟨k, hk, hmem⟩
    obtain ⟨e, he⟩ := schemaGo_unknown_key_fails "resultdb" resultdbKeyMap m []
      ⟨k, hk, (resultdbKeyMap_eq_none_iff k).2 hmem⟩
    exact ⟨e, by simp [convert_resultdb, he, bind, Except.bind]⟩
  · intro m₁ k v m₂ acc' hmem hok
    have := schemaGo_first_unknown "resultdb" resultdbKeyMap m₁ k v m₂ [] acc' hok
      ((resultdbKeyMap_eq_none_iff k).2 hmem)
    simp [convert_resultdb, this, bind, Except.bind]
  · intro m val h k hk
    rcases hs : schemaGo "swarming" swarmingKeyMap [] m with e | ps
    · simp only [convert_swarming, hs, bind, Except.bind] at h
      exact absurd h (by simp)
    · by_contra hmem
      exact schemaGo_ok_keys _ _ m [] ps hs k hk ((swarmingKeyMap_eq_none_iff k).2 hmem)
  · intro m ⟨k, hk, hmem⟩
    obtain ⟨e, he⟩ := schemaGo_unknown_key_fails "swarming" swarmingKeyMap m []
      ⟨k, hk, (swarmingKeyMap_eq_none_iff k).2 hmem⟩
    exact ⟨e, by simp [convert_swarming, he, bind, Except.bind]⟩
  · intro m₁ k v m₂ acc' hmem hok
    have := schemaGo_first_unknown "swarming" swarmingKeyMap m₁ k v m₂ [] acc' hok
      ((swarmingKeyMap_eq_none_iff k).2 hmem)
    simp [convert_swarming, this, bind, Except.bind]
  · intro m val h k hk
    rcases hs : schemaGo "skylab" skylabKeyMap [] m with e | ps
    · simp only [convert_skylab, hs, bind, Except.bind] at h
      exact absurd h (by simp)
    · by_contra hmem
      exact schemaGo_ok_keys _ _ m [] ps hs k hk ((skylabKeyMap_eq_none_iff k).2 hmem)
  · intro m ⟨k, hk, hmem⟩
    obtain ⟨e, he⟩ := schemaGo_unknown_key_fails "skylab" skylabKeyMap m []
      ⟨k, hk, (skylabKeyMap_eq_none_iff k).2 hmem⟩
    exact ⟨e, by simp [convert_skylab, he, bind, Except.bind]⟩
  · intro m₁ k v m₂ acc' hmem hok
    have := schemaGo_first_unknown "skylab" skylabKeyMap m₁ k v m₂ [] acc' hok
      ((skylabKeyMap_eq_none_iff k).2 hmem)
    simp [convert_skylab, this, bind, Except.bind]
  · intro test st h k hk
    by_contra hmem
    exact processTestKeys_ok_keys test initTestState st h k hk
      ((basicKeyAction_eq_none_iff k).2 hmem)
  · intro test ⟨k, hk, hmem⟩
    exact processTestKeys_unknown_key_fails test initTestState
      ⟨k, hk, (basicKeyAction_eq_none_iff k).2 hmem⟩
  · intro t₁ k v t₂ st hmem hok
    exact processTestKeys_first_unknown t₁ k v t₂ initTestState st hok
      ((basicKeyAction_eq_none_iff k).2 hmem)
  · intro seed cfg res h k hk
    by_contra hmem
    exact schemaGo_ok_keys _ _ cfg seed res h k hk ((matrixKeyMap_eq_none_iff k).2 hmem)
  · intro seed cfg ⟨k, hk, hmem⟩
    exact schemaGo_unknown_key_fails "matrix config" matrixKeyMap cfg seed
      ⟨k, hk, (matrixKeyMap_eq_none_iff k).2 hmem⟩
  · intro seed c₁ k v c₂ acc' hmem hok
    exact schemaGo_first_unknown "matrix config" matrixKeyMap c₁ k v c₂ seed acc' hok
      ((matrixKeyMap_eq_none_iff k).2 hmem)

/-- Witness for C2's amended statement: each dispatcher aborts at a concrete
unrecognized key with the exact message. -/
theorem C2_unhandled_key_exact_message_witness :
    convert_resultdb [("enable", .bool true), ("bogus", .int 1)]
      = .error "unhandled key in resultdb: \"bogus\"" ∧
    convert_swarming [("shards", .int 2), ("bogus", .int 1)]
      = .error "unhandled key in swarming: \"bogus\"" ∧
    convert_skylab [("shards", .int 2), ("bogus", .int 1)]
      = .error "unhandled key in skylab: \"bogus\"" ∧
    processTestKeys initTestState [("script", .str "t.py"), ("bogus", .int 1)]
      = .error "unhandled key in basic suite test definition: \"bogus\"" ∧
    schemaGo "matrix config" matrixKeyMap [("targets", Value.atom "\"s\"")]
        [("mixins", .list []), ("bogus", .int 1)]
      = .error "unhandled key in matrix config: \"bogus\"" := by
  refine ⟨?_, ?_, ?_, ?_, ?_⟩
  · have h := C2_unhandled_key_exact_message.1.2.2 [("enable", .bool true)] "bogus"
      (.int 1) [] [("enable", Value.atom "True")] (by decide)
      (by simp [schemaGo, resultdbKeyMap, insertOrReplace, convert_direct,
        bind, Except.bind])
    simpa using h
  · have h := C2_unhandled_key_exact_message.2.1.2.2 [("shards", .int 2)] "bogus"
      (.int 1) [] [("shards", Value.atom "2")] (by decide)
      (by simp [schemaGo, swarmingKeyMap, insertOrReplace, convert_direct,
        pyIntStr, natDigsAux, digitChar, bind, Except.bind])
    simpa using h
  · have h := C2_unhandled_key_exact_message.2.2.1.2.2 [("shards", .int 2)] "bogus"
      (.int 1) [] [("shards", Value.atom "2")] (by decide)
      (by simp [schemaGo, skylabKeyMap, insertOrReplace, convert_direct,
        pyIntStr, natDigsAux, digitChar, bind, Except.bind])
    simpa using h
  · have h := C2_unhandled_key_exact_message.2.2.2.1.2.2 [("script", .str "t.py")] "bogus"
      (.int 1) [] initTestState (by decide)
      (by simp [processTestKeys, processTestKey, basicKeyAction, bind, Except.bind])
    simpa using h
  · have h := C2_unhandled_key_exact_message.2.2.2.2.2.2 [("targets", Value.atom "\"s\"")]
      [("mixins", .list [])] "bogus" (.int 1) []
      [("targets", Value.atom "\"s\""), ("mixins", Value.listB [])] (by decide)
      (by simp [schemaGo, matrixKeyMap, insertOrReplace, convert_direct, convertDirectList,
        bind, Except.bind, pure, Except.pure])
    simpa using h

theorem insertOrReplace_of_not_mem {acc : List (String × Value)} {k : String}
    (v : Value) (h : k ∉ acc.map Prod.fst) :
    insertOrReplace acc k v = acc ++ [(k, v)] := by
  induction acc with
  | nil => simp [insertOrReplace]
  | cons p rest ih =>
      obtain ⟨k₀, v₀⟩ := p
      simp only [List.map_cons, List.mem_cons, not_or] at h
      simp [insertOrReplace, Ne.symm h.1, ih h.2]

theorem matrixKeyMap_eq (k : String) :
    matrixKeyMap k = if k = "mixins" ∨ k = "variants" then some k else Option.none := by
  unfold matrixKeyMap
  split <;> simp_all

theorem schemaGo_matrix_eq_spec :
    ∀ (cfg : List (String × PyValue)) (acc : List (String × Value)),
      (cfg.map Prod.fst).Nodup →
      (∀ k ∈ cfg.map Prod.fst, matrixKeyMap k ≠ Option.none → k ∉ acc.map Prod.fst) →
      schemaGo "matrix config" matrixKeyMap acc cfg
        = (matrixSpecCfg cfg).map (fun ps => acc ++ ps) := by
  intro cfg
  induction cfg with
  | nil => intro acc _ _; simp [schemaGo, matrixSpecCfg, Except.map]
  | cons p rest ih =>
      obtain ⟨k, v⟩ := p
      intro acc hnd hmem
      simp only [List.map_cons, List.nodup_cons] at hnd
      simp only [schemaGo, matrixSpecCfg, matrixKeyMap_eq]
      by_cases hk : k = "mixins" ∨ k = "variants"
      · simp only [hk, if_pos, if_true]
        rcases hc : convert_direct v with e | cv
        · simp [bind, Except.bind, Except.map]
        · simp only [bind, Except.bind]
          have hnotin : k ∉ acc.map Prod.fst := by
            refine hmem k (by simp) ?_
            rw [matrixKeyMap_eq]
            simp [hk]
          rw [insertOrReplace_of_not_mem cv hnotin]
          rw [ih (acc ++ [(k, cv)]) hnd.2 ?hrest]
          case hrest =>
            intro k' hk' hsome
            have h₁ : k' ∉ acc.map Prod.fst := hmem k' (by simp [hk']) hsome
            have h₂ : k' ≠ k := by
              intro h
              exact hnd.1 (h ▸ hk')
            simp [h₁, h₂]
          rcases matrixSpecCfg rest with e | ps <;> simp [Except.map]
      · simp [hk, Except.map]

theorem matrixGo_eq_spec :
    ∀ (suite : List (String × List (String × PyValue))) (targets : List Value),
      (∀ p ∈ suite, ((p.2.map Prod.fst).Nodup)) →
      matrixGo targets suite = (matrixSpecEntries suite).map (fun ts => targets ++ ts) := by
  intro suite
  induction suite with
  | nil => intro targets _; simp [matrixGo, matrixSpecEntries, Except.map]
  | cons p rest ih =>
      obtain ⟨name, cfg⟩ := p
      intro targets hnd
      by_cases hc : cfg.isEmpty
      · simp only [matrixGo, hc, if_true, matrixSpecEntries, matrixSpecEntry]
        rw [ih (targets ++ [Value.atom (pyQuote name)]) (fun p hp => hnd p (by simp [hp]))]
        rcases matrixSpecEntries rest with e | vs <;>
          simp [bind, Except.bind, Except.map]
      · simp only [matrixGo, hc, if_false, matrixSpecEntries, matrixSpecEntry, Bool.false_eq_true]
        rw [schemaGo_matrix_eq_spec cfg [("targets", Value.atom (pyQuote name))]
          (hnd (name, cfg) (by simp)) ?hseed]
        case hseed =>
          intro k hk hsome
          rw [matrixKeyMap_eq] at hsome
          rcases em (k = "mixins" ∨ k = "variants") with hor | hor
          · rcases hor with rfl | rfl <;> simp
          · simp [hor] at hsome
        rcases hspec : matrixSpecCfg cfg with e | ps
        · simp [bind, Except.bind, Except.map]
        · simp only [Except.map, bind, Except.bind, List.singleton_append]
          rw [ih (targets ++ [Value.callB "targets.bundle"
            (("targets", Value.atom (pyQuote name)) :: ps) Option.none])
            (fun p hp => hnd p (by simp [hp]))]
          rcases matrixSpecEntries rest with e | vs <;> simp [Except.map]

/-- C9: the matrix-compound-suite converter behaves exactly as specified:
for every entry of the input mapping, in input order, an empty matrix
config appends the converted suite-name atom directly to the targets list,
while a non-empty config builds a `targets.bundle` call pre-seeded with
`targets = convertLiteral(suite name)`, passes `mixins` and `variants`
through `convertLiteral`, fails on any other key, and appends that call;
the result is a mapping with the single key `targets` (refinement against
the spec-side definition, for configs with duplicate-free keys). -/
theorem C9_matrix_compound_suite_refines_spec :
    ∀ suite : List (String × List (String × PyValue)),
      (∀ p ∈ suite, ((p.2.map Prod.fst).Nodup)) →
      convert_matrix_compound_suite suite = convert_matrix_compound_suite_spec suite := by
  intro suite hnd
  simp only [convert_matrix_compound_suite, convert_matrix_compound_suite_spec]
  rw [matrixGo_eq_spec suite [] hnd]
  rcases matrixSpecEntries suite with e | ts <;> simp [bind, Except.bind, Except.map]

/-- Witness for C9 at the repository test's input. -/
theorem C9_matrix_compound_suite_refines_spec_witness :
    convert_matrix_compound_suite
        [("suite1", []),
         ("suite2", [("mixins", .list [.str "mixin1"]), ("variants", .list [.str "variant1"])])]
      = convert_matrix_compound_suite_spec
        [("suite1", []),
         ("suite2", [("mixins", .list [.str "mixin1"]), ("variants", .list [.str "variant1"])])] :=
  C9_matrix_compound_suite_refines_spec _ (by decide)

theorem basicKeyAction_eq_mixins_iff (k : String) :
    basicKeyAction k = some .mixins ↔ k = "mixins" := by
  unfold basicKeyAction
  split <;> simp_all

theorem basicKeyAction_eq_removeMixins_iff (k : String) :
    basicKeyAction k = some .removeMixins ↔ k = "remove_mixins" := by
  unfold basicKeyAction
  split <;> simp_all

theorem processTestKey_mixins {st : TestState} {ms : List PyValue} {cms : List Value}
    (h : convertDirectList ms = .ok cms) :
    processTestKey st "mixins" (.list ms) = .ok { st with mixinsNamed := some cms } := by
  simp [processTestKey, basicKeyAction, pyIter, h, bind, Except.bind]

theorem processTestKey_remove_mixins {st : TestState} {rs : List PyValue} {crs : List Value}
    (h : convertDirectList rs = .ok crs) :
    processTestKey st "remove_mixins" (.list rs)
      = .ok { st with modParams :=
                (insertOrReplace st.modParams "remove_mixins"
                  (Value.listB (Value.atom removeMixinsSentinel :: crs))) } := by
  simp [processTestKey, basicKeyAction, pyIter, h, bind, Except.bind]

theorem processTestKey_modParams_eq {st st' : TestState} {k : String} {v : PyValue}
    (hk : k ≠ "remove_mixins")
    (h : processTestKey st k v = .ok st') : st'.modParams = st.modParams := by
  simp only [processTestKey] at h
  rcases hact : basicKeyAction k with _ | act <;> rw [hact] at h
  · exact absurd h (by simp)
  · cases act with
    | ignore =>
        simp only [Except.ok.injEq] at h
        rw [← h]
    | anon out conv =>
        dsimp only at h
        rcases h₁ : conv v with e | cv <;> rw [h₁] at h <;>
          simp only [bind, Except.bind] at h
        · exact absurd h (by simp)
        · simp only [Except.ok.injEq] at h
          rw [← h]
    | mixins =>
        rcases h₁ : pyIter v with e | es <;> rw [h₁] at h <;>
          simp only [bind, Except.bind] at h
        · exact absurd h (by simp)
        · rcases h₂ : convertDirectList es with e | cs <;> rw [h₂] at h
          · exact absurd h (by simp)
          · simp only [Except.ok.injEq] at h
            rw [← h]
    | removeMixins => exact absurd ((basicKeyAction_eq_removeMixins_iff k).1 hact) hk

theorem processTestKey_mixinsNamed_eq {st st' : TestState} {k : String} {v : PyValue}
    (hk : k ≠ "mixins")
    (h : processTestKey st k v = .ok st') : st'.mixinsNamed = st.mixinsNamed := by
  simp only [processTestKey] at h
  rcases hact : basicKeyAction k with _ | act <;> rw [hact] at h
  · exact absurd h (by simp)
  · cases act with
    | ignore =>
        simp only [Except.ok.injEq] at h
        rw [← h]
    | anon out conv =>
        dsimp only at h
        rcases h₁ : conv v with e | cv <;> rw [h₁] at h <;>
          simp only [bind, Except.bind] at h
        · exact absurd h (by simp)
        · simp only [Except.ok.injEq] at h
          rw [← h]
    | mixins => exact absurd ((basicKeyAction_eq_mixins_iff k).1 hact) hk
    | removeMixins =>
        rcases h₁ : pyIter v with e | es <;> rw [h₁] at h <;>
          simp only [bind, Except.bind] at h
        · exact absurd h (by simp)
        · rcases h₂ : convertDirectList es with e | cs <;> rw [h₂] at h
          · exact absurd h (by simp)
          · simp only [Except.ok.injEq] at h
            rw [← h]

theorem processTestKeys_modParams_eq :
    ∀ (l : List (String × PyValue)) (st st' : TestState),
      "remove_mixins" ∉ l.map Prod.fst →
      processTestKeys st l = .ok st' → st'.modParams = st.modParams := by
  intro l
  induction l with
  | nil =>
      intro st st' _ h
      simp only [processTestKeys, Except.ok.injEq] at h
      rw [← h]
  | cons p rest ih =>
      obtain ⟨k, v⟩ := p
      intro st st' hk h
      simp only [List.map_cons, List.mem_cons, not_or] at hk
      simp only [processTestKeys] at h
      rcases h₁ : processTestKey st k v with e | st₁ <;> rw [h₁] at h <;>
        simp only [bind, Except.bind] at h
      · exact absurd h (by simp)
      · rw [ih st₁ st' hk.2 h, processTestKey_modParams_eq (Ne.symm hk.1) h₁]

theorem processTestKeys_mixinsNamed_eq :
    ∀ (l : List (String × PyValue)) (st st' : TestState),
      "mixins" ∉ l.map Prod.fst →
      processTestKeys st l = .ok st' → st'.mixinsNamed = st.mixinsNamed := by
  intro l
  induction l with
  | nil =>
      intro st st' _ h
      simp only [processTestKeys, Except.ok.injEq] at h
      rw [← h]
  | cons p rest ih =>
      obtain ⟨k, v⟩ := p
      intro st st' hk h
      simp only [List.map_cons, List.mem_cons, not_or] at hk
      simp only [processTestKeys] at h
      rcases h₁ : processTestKey st k v with e | st₁ <;> rw [h₁] at h <;>
        simp only [bind, Except.bind] at h
      · exact absurd h (by simp)
      · rw [ih st₁ st' hk.2 h, processTestKey_mixinsNamed_eq (Ne.symm hk.1) h₁]

theorem processTestKeys_modParams_of_remove_mixins :
    ∀ (l : List (String × PyValue)) (st st' : TestState) (rs : List PyValue)
      (crs : List Value),
      (l.map Prod.fst).Nodup →
      ("remove_mixins", PyValue.list rs) ∈ l →
      convertDirectList rs = .ok crs →
      st.modParams = [] →
      processTestKeys st l = .ok st' →
      st'.modParams
        = [("remove_mixins", Value.listB (Value.atom removeMixinsSentinel :: crs))] := by
  intro l
  induction l with
  | nil => intro st st' rs crs _ hmem; simp at hmem
  | cons p rest ih =>
      obtain ⟨k, v⟩ := p
      intro st st' rs crs hnd hmem hcrs hmod h
      simp only [List.map_cons, List.nodup_cons] at hnd
      simp only [processTestKeys] at h
      rcases List.mem_cons.1 hmem with heq | hmem'
      · obtain ⟨rfl, rfl⟩ := Prod.ext_iff.1 heq
        rw [processTestKey_remove_mixins hcrs] at h
        simp only [bind, Except.bind] at h
        have hpres := processTestKeys_modParams_eq rest _ st' hnd.1 h
        rw [hpres]
        simp [hmod, insertOrReplace]
      · have hkne : k ≠ "remove_mixins" := by
          intro hkk
          exact hnd.1 (hkk ▸ (List.mem_map.2 ⟨_, hmem', rfl⟩))
        rcases h₁ : processTestKey st k v with e | st₁ <;> rw [h₁] at h <;>
          simp only [bind, Except.bind] at h
        · exact absurd h (by simp)
        · have hmod₁ : st₁.modParams = [] := by
            rw [processTestKey_modParams_eq hkne h₁, hmod]
          exact ih st₁ st' rs crs hnd.2 hmem' hcrs hmod₁ h

theorem processTestKeys_mixinsNamed_of_mixins :
    ∀ (l : List (String × PyValue)) (st st' : TestState) (ms : List PyValue)
      (cms : List Value),
      (l.map Prod.fst).Nodup →
      ("mixins", PyValue.list ms) ∈ l →
      convertDirectList ms = .ok cms →
      processTestKeys st l = .ok st' →
      st'.mixinsNamed = some cms := by
  intro l
  induction l with
  | nil => intro st st' ms cms _ hmem; simp at hmem
  | cons p rest ih =>
      obtain ⟨k, v⟩ := p
      intro st st' ms cms hnd hmem hcms h
      simp only [List.map_cons, List.nodup_cons] at hnd
      simp only [processTestKeys] at h
      rcases List.mem_cons.1 hmem with heq | hmem'
      · obtain ⟨rfl, rfl⟩ := Prod.ext_iff.1 heq
        rw [processTestKey_mixins hcms] at h
        simp only [bind, Except.bind] at h
        have hpres := processTestKeys_mixinsNamed_eq rest _ st' hnd.1 h
        rw [hpres]
      · have hkne : k ≠ "mixins" := by
          intro hkk
          exact hnd.1 (hkk ▸ (List.mem_map.2 ⟨_, hmem', rfl⟩))
        rcases h₁ : processTestKey st k v with e | st₁ <;> rw [h₁] at h <;>
          simp only [bind, Except.bind] at h
        · exact absurd h (by simp)
        · exact ih st₁ st' ms cms hnd.2 hmem' hcms h

/-- C3: every test definition containing both `mixins: ["m1"]` and
`remove_mixins: ["m2"]` (keys duplicate-free, processing succeeding)
produces a `targets.per_test_modification` wrapper whose parameters are
`remove_mixins` — the sentinel followed by `"m2"` — and then `mixins` — the
anonymous mixin builder followed by `"m1"` — in that order, and whose
rendering shows `remove_mixins = [...]` followed by `mixins = [...]`. -/
theorem C3_per_test_modification_param_order :
    ∀ (test : List (String × PyValue)) (st : TestState) (ind : Nat),
      (test.map Prod.fst).Nodup →
      ("mixins", PyValue.list [.str "m1"]) ∈ test →
      ("remove_mixins", PyValue.list [.str "m2"]) ∈ test →
      processTestKeys initTestState test = .ok st →
      processTestDef test = .ok (Value.callB "targets.per_test_modification"
          [("remove_mixins",
              Value.listB [Value.atom removeMixinsSentinel, Value.atom "\"m2\""]),
           ("mixins",
              Value.listB [Value.callB "targets.mixin" st.anonParams Option.none,
                Value.atom "\"m1\""])] (some "mixins")) ∧
      render ind (Value.callB "targets.per_test_modification"
          [("remove_mixins",
              Value.listB [Value.atom removeMixinsSentinel, Value.atom "\"m2\""]),
           ("mixins",
              Value.listB [Value.callB "targets.mixin" st.anonParams Option.none,
                Value.atom "\"m1\""])] (some "mixins"))
        = "targets.per_test_modification" ++ "(\n"
            ++ (spaces ind ++ "remove_mixins" ++ " = "
                 ++ render (ind + 2)
                      (Value.listB [Value.atom removeMixinsSentinel, Value.atom "\"m2\""])
                 ++ ",\n")
            ++ (spaces ind ++ "mixins" ++ " = "
                 ++ render (ind + 2)
                      (Value.listB [Value.callB "targets.mixin" st.anonParams Option.none,
                        Value.atom "\"m1\""]) ++ ",\n")
            ++ spaces (ind - 2) ++ ")" := by
  intro test st ind hnd hmix hrm h
  have hms : convertDirectList [PyValue.str "m1"] = .ok [Value.atom "\"m1\""] := by
    simp [convertDirectList, convert_direct, pyQuote, escapeQuotes, bind, Except.bind,
      pure, Except.pure]
  have hrs : convertDirectList [PyValue.str "m2"] = .ok [Value.atom "\"m2\""] := by
    simp [convertDirectList, convert_direct, pyQuote, escapeQuotes, bind, Except.bind,
      pure, Except.pure]
  have h₁ := processTestKeys_modParams_of_remove_mixins test initTestState st _ _
    hnd hrm hrs (by simp [initTestState]) h
  have h₂ := processTestKeys_mixinsNamed_of_mixins test initTestState st _ _
    hnd hmix hms h
  constructor
  · simp only [processTestDef, h, bind, Except.bind, h₁, h₂]
    simp [insertOrReplace]
  · simp [render, renderParams, isEmptyCall, String.append_assoc]

/-- Witness for C3 at the repository test's second test definition. -/
theorem C3_per_test_modification_param_order_witness :
    processTestKeys initTestState
        [("test", PyValue.str "test2_test"), ("mixins", PyValue.list [.str "m1"]),
         ("remove_mixins", PyValue.list [.str "m2"])]
      = .ok { anonParams := [], mixinsNamed := some [Value.atom "\"m1\""],
              modParams := [("remove_mixins",
                Value.listB [Value.atom removeMixinsSentinel, Value.atom "\"m2\""])] } ∧
    processTestDef
        [("test", PyValue.str "test2_test"), ("mixins", PyValue.list [.str "m1"]),
         ("remove_mixins", PyValue.list [.str "m2"])]
      = .ok (Value.callB "targets.per_test_modification"
          [("remove_mixins",
              Value.listB [Value.atom removeMixinsSentinel, Value.atom "\"m2\""]),
           ("mixins",
              Value.listB [Value.callB "targets.mixin" [] Option.none,
                Value.atom "\"m1\""])] (some "mixins")) := by
  have hrun : processTestKeys initTestState
      [("test", PyValue.str "test2_test"), ("mixins", PyValue.list [.str "m1"]),
       ("remove_mixins", PyValue.list [.str "m2"])]
      = .ok { anonParams := [], mixinsNamed := some [Value.atom "\"m1\""],
              modParams := [("remove_mixins",
                Value.listB [Value.atom removeMixinsSentinel, Value.atom "\"m2\""])] } := by
    simp [processTestKeys, processTestKey, basicKeyAction, initTestState, pyIter,
      convertDirectList, convert_direct, pyQuote, escapeQuotes, removeMixinsSentinel,
      insertOrReplace, bind, Except.bind, pure, Except.pure]
  exact ⟨hrun,
    (C3_per_test_modification_param_order _ _ 2 (by decide) (by simp) (by simp) hrun).1⟩

theorem getLast?_cons_append_singleton (c : Char) (l₁ l₂ : List Char) (x : Char) :
    (c :: (l₁ ++ (l₂ ++ [x]))).getLast? = some x := by
  rw [show c :: (l₁ ++ (l₂ ++ [x])) = (c :: (l₁ ++ l₂)) ++ [x] by simp]
  exact List.getLast?_concat _

theorem convertDirectList_strs :
    ∀ l : List String,
      convertDirectList (l.map PyValue.str) = .ok (l.map fun s => Value.atom (pyQuote s)) := by
  intro l
  induction l with
  | nil => simp [convertDirectList]
  | cons s rest ih => simp [convertDirectList, convert_direct, ih, bind, Except.bind]

/-! ### Round-trip machinery: numbers -/

theorem digitChar_isDigit {d : Nat} (h : d < 10) : isDigitChar (digitChar d) = true := by
  interval_cases d <;> decide

theorem digitChar_toNat {d : Nat} (h : d < 10) : (digitChar d).toNat - 48 = d := by
  interval_cases d <;> decide

theorem digitsOf_ne_nil (n : Nat) : digitsOf n ≠ [] := by
  unfold digitsOf
  split <;> simp

theorem digitsOf_all_digits : ∀ n : Nat, ∀ c ∈ digitsOf n, isDigitChar c = true := by
  intro n
  induction n using Nat.strong_induction_on with
  | _ n ih =>
      intro c hc
      unfold digitsOf at hc
      by_cases h : n < 10
      · rw [if_pos h] at hc
        simp only [List.mem_singleton] at hc
        exact hc ▸ digitChar_isDigit h
      · rw [if_neg h] at hc
        rcases List.mem_append.1 hc with hc | hc
        · exact ih (n / 10) (Nat.div_lt_self (by omega) (by omega)) c hc
        · simp only [List.mem_singleton] at hc
          exact hc ▸ digitChar_isDigit (Nat.mod_lt n (by omega))

theorem natDigsAux_eq : ∀ (n : Nat) (acc : List Char), natDigsAux n acc = digitsOf n ++ acc := by
  intro n
  induction n using Nat.strong_induction_on with
  | _ n ih =>
      intro acc
      unfold natDigsAux digitsOf
      by_cases h : n < 10
      · simp [h]
      · rw [if_neg h, if_neg h, ih (n / 10) (Nat.div_lt_self (by omega) (by omega)),
          List.append_assoc, List.singleton_append]

theorem digits_foldl : ∀ (n : Nat) (A : Nat),
    (digitsOf n).foldl (fun a c => a * 10 + (c.toNat - 48)) A
      = A * 10 ^ (digitsOf n).length + n := by
  intro n
  induction n using Nat.strong_induction_on with
  | _ n ih =>
      intro A
      unfold digitsOf
      by_cases h : n < 10
      · simp [h, List.foldl, digitChar_toNat h]
      · rw [if_neg h, List.foldl_append, ih (n / 10) (Nat.div_lt_self (by omega) (by omega))]
        simp only [List.foldl, List.length_append, List.length_singleton]
        rw [digitChar_toNat (Nat.mod_lt n (by omega))]
        rw [Nat.pow_succ]
        have := Nat.div_add_mod n 10
        ring_nf
        omega

theorem parseDigits_spec : ∀ (ds rest : List Char) (A : Nat),
    (∀ c ∈ ds, isDigitChar c = true) →
    (∀ c, rest.head? = some c → isDigitChar c = false) →
    parseDigits (ds ++ rest) A
      = (ds.foldl (fun a c => a * 10 + (c.toNat - 48)) A, rest) := by
  intro ds
  induction ds with
  | nil =>
      intro rest A _ hrest
      cases rest with
      | nil => simp [parseDigits]
      | cons c r => simp [parseDigits, hrest c rfl]
  | cons c ds' ih =>
      intro rest A hds hrest
      simp only [List.cons_append, parseDigits, hds c (by simp), if_true, List.foldl_cons]
      exact ih rest _ (fun c' hc' => hds c' (by simp [hc'])) hrest

theorem parseDigits_digitsOf (n : Nat) (rest : List Char)
    (hrest : ∀ c, rest.head? = some c → isDigitChar c = false) :
    parseDigits (digitsOf n ++ rest) 0 = (n, rest) := by
  rw [parseDigits_spec _ _ 0 (digitsOf_all_digits n) hrest, digits_foldl]
  simp

/-! ### Round-trip machinery: layout and strings -/

theorem skipWs_cons_not_ws {c : Char} (h1 : c ≠ ' ') (h2 : c ≠ '\n') (l : List Char) :
    skipWs (c :: l) = c :: l := by
  simp [skipWs, h1, h2]

theorem skipWs_newline (l : List Char) : skipWs ('\n' :: l) = skipWs l := by
  simp [skipWs]

theorem skipWs_replicate (n : Nat) (l : List Char) :
    skipWs (List.replicate n ' ' ++ l) = skipWs l := by
  induction n with
  | zero => simp
  | succ m ih => simp [List.replicate_succ, skipWs, ih]

theorem cleanChars_spec {cs : List Char} (h : cleanChars cs = true) :
    ∀ c ∈ cs, c ≠ '\\' ∧ c ≠ '\n' := by
  intro c hc
  simp only [cleanChars, List.all_eq_true] at h
  have := h c hc
  simp only [Bool.and_eq_true, bne_iff_ne, ne_eq] at this
  exact this

theorem parseStringBody_quote (l : List Char) :
    parseStringBody ('"' :: l) = some ([], l) := by
  rw [parseStringBody]
  norm_num

theorem parseStringBody_escaped_quote (l : List Char) :
    parseStringBody ('\\' :: '"' :: l)
      = (parseStringBody l).map fun p => ('"' :: p.1, p.2) := by
  rw [parseStringBody]
  rw [if_neg (by decide : ¬(('\\' : Char) = '"')), if_pos (rfl : ('\\' : Char) = '\\')]
  rw [parseEscaped]
  rw [if_pos (rfl : ('"' : Char) = '"')]

theorem parseStringBody_other {c : Char} (l : List Char)
    (h1 : c ≠ '"') (h2 : c ≠ '\\') (h3 : c ≠ '\n') :
    parseStringBody (c :: l) = (parseStringBody l).map fun p => (c :: p.1, p.2) := by
  rw [parseStringBody]
  rw [if_neg h1, if_neg h2, if_neg h3]

theorem parseStringBody_escape : ∀ (cs rest : List Char),
    (∀ c ∈ cs, c ≠ '\\' ∧ c ≠ '\n') →
    parseStringBody (escapeQuotes cs ++ '"' :: rest) = some (cs, rest) := by
  intro cs
  induction cs with
  | nil => intro rest _; exact parseStringBody_quote rest
  | cons c cs' ih =>
      intro rest hclean
      have hc := hclean c (by simp)
      have ihr := ih rest (fun c' h' => hclean c' (by simp [h']))
      by_cases hq : c = '"'
      · subst hq
        rw [show escapeQuotes ('"' :: cs') = '\\' :: '"' :: escapeQuotes cs' by
          simp [escapeQuotes]]
        simp only [List.cons_append]
        rw [parseStringBody_escaped_quote, ihr]
        rfl
      · simp only [escapeQuotes, if_neg hq, List.cons_append]
        rw [parseStringBody_other _ hq hc.1 hc.2, ihr]
        rfl

theorem pyQuote_data (s : String) :
    (pyQuote s).data = '"' :: (escapeQuotes s.data ++ ['"']) := by
  simp [pyQuote, String.data_append]

theorem spaces_data (n : Nat) : (spaces n).data = List.replicate n ' ' := rfl

theorem digit_ne_chars {c : Char} (h : isDigitChar c = true) :
    c ≠ ' ' ∧ c ≠ '\n' ∧ c ≠ '"' ∧ c ≠ '[' ∧ c ≠ '\x7b' ∧ c ≠ '-' ∧ c ≠ ']' ∧
      c ≠ '\x7d' ∧ c ≠ ',' ∧ c ≠ ':' := by
  refine ⟨?_, ?_, ?_, ?_, ?_, ?_, ?_, ?_, ?_, ?_⟩ <;>
    · intro hc
      rw [hc] at h
      exact absurd h (by decide)

/-! ### Round-trip machinery: parser head dispatch -/

theorem parseValue_cons_quote (g : Nat) (tail : List Char) :
    parseValue (g + 1) ('"' :: tail)
      = (parseStringBody tail).map fun p => (PyValue.str (String.mk p.1), p.2) := rfl

theorem parseValue_cons_lbrack (g : Nat) (tail : List Char) :
    parseValue (g + 1) ('[' :: tail)
      = (parseElems g tail).map fun p => (PyValue.list p.1, p.2) := rfl

theorem parseValue_cons_lbrace (g : Nat) (tail : List Char) :
    parseValue (g + 1) ('\x7b' :: tail)
      = (parsePairs g tail).map fun p => (PyValue.dict p.1, p.2) := rfl

theorem parseValue_cons_digit {d : Char} (g : Nat) (tail : List Char)
    (hd : isDigitChar d = true) :
    parseValue (g + 1) (d :: tail)
      = some (PyValue.int ((parseDigits (d :: tail) 0).1 : Int),
              (parseDigits (d :: tail) 0).2) := by
  obtain ⟨h1, h2, h3, h4, h5, h6, _, _, _, _⟩ := digit_ne_chars hd
  simp only [parseValue, skipWs_cons_not_ws h1 h2]
  simp [h3, h4, h5, h6, hd]

theorem parseValue_cons_minus {d : Char} (g : Nat) (ds : List Char)
    (hd : isDigitChar d = true) :
    parseValue (g + 1) ('-' :: d :: ds)
      = some (PyValue.int (-((parseDigits (d :: ds) 0).1 : Int)),
              (parseDigits (d :: ds) 0).2) := by
  simp [parseValue, skipWs, hd]

theorem parseElems_cons_rbrack (g : Nat) (rest : List Char) :
    parseElems (g + 1) (']' :: rest) = some ([], rest) := rfl

theorem parseElems_step {g : Nat} {c : Char} {rest : List Char} {v : PyValue}
    {r₁ : List Char} (hc1 : c ≠ ' ') (hc2 : c ≠ '\n') (hc3 : c ≠ ']')
    (hv : parseValue g (c :: rest) = some (v, r₁)) :
    parseElems (g + 1) (c :: rest)
      = (match skipWs r₁ with
         | c₂ :: r₂ =>
             if c₂ = ',' then (parseElems g r₂).map fun p => (v :: p.1, p.2)
             else if c₂ = ']' then some ([v], r₂)
             else Option.none
         | [] => Option.none) := by
  simp only [parseElems, skipWs_cons_not_ws hc1 hc2, if_neg hc3, hv]

theorem parsePairs_cons_rbrace (g : Nat) (rest : List Char) :
    parsePairs (g + 1) ('\x7d' :: rest) = some ([], rest) := rfl

theorem parsePairs_step {g : Nat} {kcs r₁ : List Char} {rest : List Char}
    (hk : parseStringBody rest = some (kcs, r₁)) :
    parsePairs (g + 1) ('"' :: rest)
      = (match skipWs r₁ with
         | c₂ :: r₂ =>
             if c₂ = ':' then
               match parseValue g r₂ with
               | some (v, r₃) =>
                   (match skipWs r₃ with
                    | c₄ :: r₄ =>
                        if c₄ = ',' then
                          (parsePairs g r₄).map fun p => ((String.mk kcs, v) :: p.1, p.2)
                        else if c₄ = '\x7d' then some ([(String.mk kcs, v)], r₄)
                        else Option.none
                    | [] => Option.none)
               | Option.none => Option.none
             else Option.none
         | [] => Option.none) := by
  simp only [parsePairs]
  rw [skipWs_cons_not_ws (by decide) (by decide)]
  dsimp only
  rw [if_neg (by decide : ¬(('"' : Char) = '\x7d')), if_pos (rfl : ('"' : Char) = '"'), hk]

/-! ### Round-trip machinery: shapes of converted values -/

theorem pvFuel_pos (v : PyValue) : 1 ≤ pvFuel v := by
  cases v <;> simp [pvFuel]

theorem elemsFuel_pos (es : List PyValue) : 1 ≤ elemsFuel es := by
  cases es with
  | nil => simp [elemsFuel]
  | cons e es' => simp only [elemsFuel]; omega

theorem pairsFuel_pos (ps : List (String × PyValue)) : 1 ≤ pairsFuel ps := by
  cases ps with
  | nil => simp [pairsFuel]
  | cons p ps' => obtain ⟨k, v⟩ := p; simp [pairsFuel]; omega

theorem convert_ok_not_emptyCall {v : PyValue} {cv : Value}
    (h : convert_direct v = .ok cv) : isEmptyCall cv = false := by
  cases v with
  | none =>
      simp only [convert_direct, Except.ok.injEq] at h
      subst h; simp [isEmptyCall]
  | bool b =>
      cases b <;>
        (simp only [convert_direct, Except.ok.injEq] at h; subst h; simp [isEmptyCall])
  | int n =>
      simp only [convert_direct, Except.ok.injEq] at h
      subst h; simp [isEmptyCall]
  | str s =>
      simp only [convert_direct, Except.ok.injEq] at h
      subst h; simp [isEmptyCall]
  | list es =>
      simp only [convert_direct] at h
      rcases hc : convertDirectList es with e | vs <;> rw [hc] at h <;>
        simp only [bind, Except.bind] at h
      · exact absurd h (by simp)
      · simp only [Except.ok.injEq] at h
        subst h; simp [isEmptyCall]
  | dict ps =>
      simp only [convert_direct] at h
      rcases hc : convertDirectPairs ps with e | qs <;> rw [hc] at h <;>
        simp only [bind, Except.bind] at h
      · exact absurd h (by simp)
      · simp only [Except.ok.injEq] at h
        subst h; simp [isEmptyCall]
  | other r =>
      simp only [convert_direct] at h
      exact absurd h (by simp)

theorem parseValue_cons_space (g : Nat) (l : List Char) :
    parseValue g (' ' :: l) = parseValue g l := by
  cases g with
  | zero => rfl
  | succ g' =>
      simp only [parseValue]
      rw [show skipWs (' ' :: l) = skipWs l by simp [skipWs]]

theorem render_convert_head {v : PyValue} {cv : Value} (ind : Nat)
    (h : convert_direct v = .ok cv) :
    ∃ c cs, (render ind cv).data = c :: cs ∧
      c ≠ ' ' ∧ c ≠ '\n' ∧ c ≠ ']' ∧ c ≠ '\x7d' := by
  cases v with
  | none =>
      simp only [convert_direct, Except.ok.injEq] at h
      subst h
      refine ⟨'N', ['o', 'n', 'e'], ?_, by decide, by decide, by decide, by decide⟩
      rw [show render ind (Value.atom "None") = "None" by simp [render]]
  | bool b =>
      cases b <;> simp only [convert_direct, Except.ok.injEq] at h <;> subst h
      · refine ⟨'F', ['a', 'l', 's', 'e'], ?_, by decide, by decide, by decide, by decide⟩
        rw [show render ind (Value.atom "False") = "False" by simp [render]]
      · refine ⟨'T', ['r', 'u', 'e'], ?_, by decide, by decide, by decide, by decide⟩
        rw [show render ind (Value.atom "True") = "True" by simp [render]]
  | int n =>
      simp only [convert_direct, Except.ok.injEq] at h
      subst h
      rw [show render ind (Value.atom (pyIntStr n)) = pyIntStr n by simp [render]]
      by_cases hneg : n < 0
      · refine ⟨'-', digitsOf (-n).toNat, ?_, by decide, by decide, by decide, by decide⟩
        simp [pyIntStr, hneg, String.data_append, natDigsAux_eq]
      · obtain ⟨d, ds, hd⟩ := List.exists_cons_of_ne_nil (digitsOf_ne_nil n.toNat)
        have hdig : isDigitChar d = true :=
          digitsOf_all_digits n.toNat d (by rw [hd]; exact List.mem_cons_self _ _)
        obtain ⟨h1, h2, _, _, _, _, h7, h8, _, _⟩ := digit_ne_chars hdig
        refine ⟨d, ds, ?_, h1, h2, h7, h8⟩
        simp [pyIntStr, hneg, natDigsAux_eq, hd]
  | str s =>
      simp only [convert_direct, Except.ok.injEq] at h
      subst h
      rw [show render ind (Value.atom (pyQuote s)) = pyQuote s by simp [render]]
      exact ⟨'"', _, pyQuote_data s, by decide, by decide, by decide, by decide⟩
  | list es =>
      simp only [convert_direct] at h
      rcases hc : convertDirectList es with e | vs <;> rw [hc] at h <;>
        simp only [bind, Except.bind] at h
      · exact absurd h (by simp)
      · simp only [Except.ok.injEq] at h
        subst h
        by_cases hb : renderItems ind vs = ""
        · refine ⟨'[', [']'], ?_, by decide, by decide, by decide, by decide⟩
          rw [show render ind (Value.listB vs) = "[]" by simp [render, hb]]
        · have hdata : (render ind (Value.listB vs)).data
              = '[' :: '\n' :: ((renderItems ind vs).data
                  ++ ((spaces (ind - 2)).data ++ [']'])) := by
            rw [show render ind (Value.listB vs)
                = "[\n" ++ renderItems ind vs ++ spaces (ind - 2) ++ "]" by
              simp [render, hb]]
            simp [String.data_append]
          exact ⟨'[', _, hdata, by decide, by decide, by decide, by decide⟩
  | dict ps =>
      simp only [convert_direct] at h
      rcases hc : convertDirectPairs ps with e | qs <;> rw [hc] at h <;>
        simp only [bind, Except.bind] at h
      · exact absurd h (by simp)
      · simp only [Except.ok.injEq] at h
        subst h
        by_cases hb : renderPairs ind qs = ""
        · refine ⟨'\x7b', ['\x7d'], ?_, by decide, by decide, by decide, by decide⟩
          rw [show render ind (Value.dictB qs) = "\x7b\x7d" by simp [render, hb]]
        · have hdata : (render ind (Value.dictB qs)).data
              = '\x7b' :: '\n' :: ((renderPairs ind qs).data
                  ++ ((spaces (ind - 2)).data ++ ['\x7d'])) := by
            rw [show render ind (Value.dictB qs)
                = "\x7b\n" ++ renderPairs ind qs ++ spaces (ind - 2) ++ "\x7d" by
              simp [render, hb]]
            simp [String.data_append]
          exact ⟨'\x7b', _, hdata, by decide, by decide, by decide, by decide⟩
  | other r =>
      simp only [convert_direct] at h
      exact absurd h (by simp)

/-! ### Round-trip machinery: the main induction -/

theorem parse_render_main : ∀ f : Nat,
    (∀ (v : PyValue) (cv : Value) (ind : Nat) (rest : List Char),
      cleanPy v = true → convert_direct v = .ok cv → pvFuel v ≤ f →
      (∀ c, rest.head? = some c → isDigitChar c = false) →
      parseValue f ((render ind cv).data ++ rest) = some (v, rest)) ∧
    (∀ (es : List PyValue) (cvs : List Value) (ind : Nat) (rest : List Char),
      cleanList es = true → convertDirectList es = .ok cvs → elemsFuel es ≤ f →
      parseElems f ('\n' :: ((renderItems ind cvs).data
          ++ (List.replicate (ind - 2) ' ' ++ ']' :: rest)))
        = some (es, rest)) ∧
    (∀ (ps : List (String × PyValue)) (cvs : List (String × Value)) (ind : Nat)
      (rest : List Char),
      cleanPairs ps = true → convertDirectPairs ps = .ok cvs → pairsFuel ps ≤ f →
      parsePairs f ('\n' :: ((renderPairs ind cvs).data
          ++ (List.replicate (ind - 2) ' ' ++ '\x7d' :: rest)))
        = some (ps, rest)) := by
  intro f
  induction f using Nat.strong_induction_on with
  | _ f ih =>
  refine ⟨?_, ?_, ?_⟩
  · -- part 1: single values
    intro v cv ind rest hclean hconv hfuel hrest
    cases f with
    | zero => exact absurd hfuel (by have := pvFuel_pos v; omega)
    | succ g =>
    cases v with
    | none =>
        simp only [convert_direct, Except.ok.injEq] at hconv
        subst hconv
        rw [show render ind (Value.atom "None") = "None" by simp [render]]
        rfl
    | bool b =>
        cases b <;> simp only [convert_direct, Except.ok.injEq] at hconv <;> subst hconv
        · rw [show render ind (Value.atom "False") = "False" by simp [render]]
          rfl
        · rw [show render ind (Value.atom "True") = "True" by simp [render]]
          rfl
    | int n =>
        simp only [convert_direct, Except.ok.injEq] at hconv
        subst hconv
        rw [show render ind (Value.atom (pyIntStr n)) = pyIntStr n by simp [render]]
        by_cases hneg : n < 0
        · have hdata : (pyIntStr n).data = '-' :: digitsOf (-n).toNat := by
            simp [pyIntStr, hneg, String.data_append, natDigsAux_eq]
          rw [hdata]
          obtain ⟨d, ds, hd⟩ := List.exists_cons_of_ne_nil (digitsOf_ne_nil (-n).toNat)
          have hdig : isDigitChar d = true :=
            digitsOf_all_digits (-n).toNat d (by rw [hd]; exact List.mem_cons_self _ _)
          have hpd : parseDigits (digitsOf (-n).toNat ++ rest) 0 = ((-n).toNat, rest) :=
            parseDigits_digitsOf _ _ hrest
          rw [hd] at hpd ⊢
          simp only [List.cons_append] at hpd ⊢
          rw [parseValue_cons_minus g (ds ++ rest) hdig, hpd]
          simp only [Option.some.injEq, Prod.mk.injEq, PyValue.int.injEq]
          exact ⟨by omega, trivial⟩
        · have hdata : (pyIntStr n).data = digitsOf n.toNat := by
            simp [pyIntStr, hneg, natDigsAux_eq]
          rw [hdata]
          obtain ⟨d, ds, hd⟩ := List.exists_cons_of_ne_nil (digitsOf_ne_nil n.toNat)
          have hdig : isDigitChar d = true :=
            digitsOf_all_digits n.toNat d (by rw [hd]; exact List.mem_cons_self _ _)
          have hpd : parseDigits (digitsOf n.toNat ++ rest) 0 = (n.toNat, rest) :=
            parseDigits_digitsOf _ _ hrest
          rw [hd] at hpd ⊢
          simp only [List.cons_append] at hpd ⊢
          rw [parseValue_cons_digit g (ds ++ rest) hdig, hpd]
          simp only [Option.some.injEq, Prod.mk.injEq, PyValue.int.injEq]
          exact ⟨by omega, trivial⟩
    | str s =>
        simp only [convert_direct, Except.ok.injEq] at hconv
        subst hconv
        simp only [cleanPy] at hclean
        rw [show render ind (Value.atom (pyQuote s)) = pyQuote s by simp [render]]
        rw [pyQuote_data]
        simp only [List.cons_append, List.append_assoc, List.singleton_append,
          List.nil_append]
        rw [parseValue_cons_quote]
        rw [parseStringBody_escape s.data rest (cleanChars_spec hclean)]
        rfl
    | list es =>
        simp only [convert_direct] at hconv
        rcases hc : convertDirectList es with e₀ | vs <;> rw [hc] at hconv <;>
          simp only [bind, Except.bind] at hconv
        · exact absurd hconv (by simp)
        simp only [Except.ok.injEq] at hconv
        subst hconv
        have hg : elemsFuel es ≤ g := by simp only [pvFuel] at hfuel; omega
        cases es with
        | nil =>
            simp only [convertDirectList, Except.ok.injEq] at hc
            subst hc
            rw [show render ind (Value.listB []) = "[]" by simp [render, renderItems]]
            have hg1 : 1 ≤ g := by simpa [elemsFuel] using hg
            obtain ⟨g', rfl⟩ : ∃ g', g = g' + 1 := ⟨g - 1, by omega⟩
            rfl
        | cons e es' =>
            simp only [convertDirectList] at hc
            rcases hcv : convert_direct e with e₀ | cv <;> rw [hcv] at hc <;>
              simp only [bind, Except.bind] at hc
            · exact absurd hc (by simp)
            rcases hcs' : convertDirectList es' with e₀ | cvs' <;> rw [hcs'] at hc <;>
              simp only [bind, Except.bind] at hc
            · exact absurd hc (by simp)
            simp only [Except.ok.injEq] at hc
            rw [← hc]
            have hemp := convert_ok_not_emptyCall hcv
            obtain ⟨c0, cs0, hd0, hne1, hne2, hne3, _⟩ := render_convert_head (ind + 2) hcv
            have hbne : renderItems ind (cv :: cvs') ≠ "" := by
              intro hcontra
              have hdl := congrArg String.data hcontra
              simp only [renderItems, hemp, Bool.false_eq_true, if_false,
                String.data_append, spaces_data,
                show (",\n" : String).data = [',', '\n'] from rfl] at hdl
              simp at hdl
            rw [show render ind (Value.listB (cv :: cvs'))
                = "[\n" ++ renderItems ind (cv :: cvs') ++ spaces (ind - 2) ++ "]" by
              simp [render, hbne]]
            have hdata : (("[\n" ++ renderItems ind (cv :: cvs') ++ spaces (ind - 2)
                ++ "]").data ++ rest)
                = '[' :: '\n' :: ((renderItems ind (cv :: cvs')).data
                    ++ (List.replicate (ind - 2) ' ' ++ ']' :: rest)) := by
              simp [String.data_append, spaces_data, List.append_assoc]
            rw [hdata, parseValue_cons_lbrack]
            rw [(ih g (by omega)).2.1 (e :: es') (cv :: cvs') ind rest
              (by simpa [cleanPy] using hclean)
              (by simp [convertDirectList, hcv, hcs', bind, Except.bind]) hg]
            rfl
    | dict ps =>
        simp only [convert_direct] at hconv
        rcases hc : convertDirectPairs ps with e₀ | qs <;> rw [hc] at hconv <;>
          simp only [bind, Except.bind] at hconv
        · exact absurd hconv (by simp)
        simp only [Except.ok.injEq] at hconv
        subst hconv
        have hg : pairsFuel ps ≤ g := by simp only [pvFuel] at hfuel; omega
        cases ps with
        | nil =>
            simp only [convertDirectPairs, Except.ok.injEq] at hc
            subst hc
            rw [show render ind (Value.dictB []) = "\x7b\x7d" by simp [render, renderPairs]]
            have hg1 : 1 ≤ g := by simpa [pairsFuel] using hg
            obtain ⟨g', rfl⟩ : ∃ g', g = g' + 1 := ⟨g - 1, by omega⟩
            rfl
        | cons p ps' =>
            obtain ⟨k, pv⟩ := p
            simp only [convertDirectPairs] at hc
            rcases hcv : convert_direct pv with e₀ | cv <;> rw [hcv] at hc <;>
              simp only [bind, Except.bind] at hc
            · exact absurd hc (by simp)
            rcases hcs' : convertDirectPairs ps' with e₀ | qs' <;> rw [hcs'] at hc <;>
              simp only [bind, Except.bind] at hc
            · exact absurd hc (by simp)
            simp only [Except.ok.injEq] at hc
            rw [← hc]
            have hemp := convert_ok_not_emptyCall hcv
            have hbne : renderPairs ind ((pyQuote k, cv) :: qs') ≠ "" := by
              intro hcontra
              have hdl := congrArg String.data hcontra
              simp only [renderPairs, hemp, Bool.false_eq_true, if_false,
                String.data_append, spaces_data,
                show (",\n" : String).data = [',', '\n'] from rfl,
                show (": " : String).data = [':', ' '] from rfl] at hdl
              simp at hdl
            rw [show render ind (Value.dictB ((pyQuote k, cv) :: qs'))
                = "\x7b\n" ++ renderPairs ind ((pyQuote k, cv) :: qs')
                  ++ spaces (ind - 2) ++ "\x7d" by
              simp [render, hbne]]
            have hdata : (("\x7b\n" ++ renderPairs ind ((pyQuote k, cv) :: qs')
                ++ spaces (ind - 2) ++ "\x7d").data ++ rest)
                = '\x7b' :: '\n' :: ((renderPairs ind ((pyQuote k, cv) :: qs')).data
                    ++ (List.replicate (ind - 2) ' ' ++ '\x7d' :: rest)) := by
              simp [String.data_append, spaces_data, List.append_assoc]
            rw [hdata, parseValue_cons_lbrace]
            rw [(ih g (by omega)).2.2 ((k, pv) :: ps') ((pyQuote k, cv) :: qs') ind rest
              (by simpa [cleanPy] using hclean)
              (by simp [convertDirectPairs, hcv, hcs', bind, Except.bind]) hg]
            rfl
    | other r =>
        simp only [convert_direct] at hconv
        exact absurd hconv (by simp)
  · -- part 2: list elements
    intro es cvs ind rest hclean hconv hfuel
    cases f with
    | zero => exact absurd hfuel (by have := elemsFuel_pos es; omega)
    | succ g =>
    cases es with
    | nil =>
        simp only [convertDirectList, Except.ok.injEq] at hconv
        subst hconv
        rw [show renderItems ind ([] : List Value) = "" by simp [renderItems]]
        simp only [parseElems]
        rw [List.nil_append, skipWs_newline, skipWs_replicate,
          skipWs_cons_not_ws (by decide) (by decide)]
        simp
    | cons e es' =>
        simp only [convertDirectList] at hconv
        rcases hcv : convert_direct e with e₀ | cv <;> rw [hcv] at hconv <;>
          simp only [bind, Except.bind] at hconv
        · exact absurd hconv (by simp)
        rcases hcs' : convertDirectList es' with e₀ | cvs' <;> rw [hcs'] at hconv <;>
          simp only [bind, Except.bind] at hconv
        · exact absurd hconv (by simp)
        simp only [Except.ok.injEq] at hconv
        subst hconv
        simp only [cleanList, Bool.and_eq_true] at hclean
        simp only [elemsFuel] at hfuel
        have hemp := convert_ok_not_emptyCall hcv
        have hdata : (renderItems ind (cv :: cvs')).data
            = List.replicate ind ' ' ++ ((render (ind + 2) cv).data
                ++ (',' :: '\n' :: (renderItems ind cvs').data)) := by
          simp [renderItems, hemp, String.data_append, spaces_data,
            show (",\n" : String).data = [',', '\n'] from rfl]
        rw [hdata]
        simp only [List.append_assoc, List.cons_append]
        obtain ⟨c0, cs0, hd0, hne1, hne2, hne3, _⟩ := render_convert_head (ind + 2) hcv
        simp only [parseElems]
        rw [skipWs_newline, skipWs_replicate]
        have hV := (ih g (by omega)).1 e cv (ind + 2)
          (',' :: '\n' :: ((renderItems ind cvs').data
            ++ (List.replicate (ind - 2) ' ' ++ ']' :: rest)))
          hclean.1 hcv (by omega) (by intro c hc; simp at hc; subst hc; decide)
        rw [hd0] at hV ⊢
        simp only [List.cons_append, List.append_assoc] at hV ⊢
        rw [skipWs_cons_not_ws hne1 hne2]
        dsimp only
        rw [if_neg hne3, hV]
        dsimp only
        rw [skipWs_cons_not_ws (by decide) (by decide)]
        dsimp only
        rw [if_pos rfl]
        rw [(ih g (by omega)).2.1 es' cvs' ind rest hclean.2 hcs' (by omega)]
        rfl
  · -- part 3: dict pairs
    intro ps cvs ind rest hclean hconv hfuel
    cases f with
    | zero => exact absurd hfuel (by have := pairsFuel_pos ps; omega)
    | succ g =>
    cases ps with
    | nil =>
        simp only [convertDirectPairs, Except.ok.injEq] at hconv
        subst hconv
        rw [show renderPairs ind ([] : List (String × Value)) = "" by simp [renderPairs]]
        simp only [parsePairs]
        rw [List.nil_append, skipWs_newline, skipWs_replicate,
          skipWs_cons_not_ws (by decide) (by decide)]
        simp
    | cons p ps' =>
        obtain ⟨k, pv⟩ := p
        simp only [convertDirectPairs] at hconv
        rcases hcv : convert_direct pv with e₀ | cv <;> rw [hcv] at hconv <;>
          simp only [bind, Except.bind] at hconv
        · exact absurd hconv (by simp)
        rcases hcs' : convertDirectPairs ps' with e₀ | qs' <;> rw [hcs'] at hconv <;>
          simp only [bind, Except.bind] at hconv
        · exact absurd hconv (by simp)
        simp only [Except.ok.injEq] at hconv
        subst hconv
        simp only [cleanPairs, Bool.and_eq_true] at hclean
        simp only [pairsFuel] at hfuel
        have hemp := convert_ok_not_emptyCall hcv
        have hdata : (renderPairs ind ((pyQuote k, cv) :: qs')).data
            = List.replicate ind ' ' ++ ((pyQuote k).data ++ (':' :: ' ' ::
                ((render (ind + 2) cv).data
                  ++ (',' :: '\n' :: (renderPairs ind qs').data)))) := by
          simp [renderPairs, hemp, String.data_append, spaces_data,
            show (",\n" : String).data = [',', '\n'] from rfl,
            show (": " : String).data = [':', ' '] from rfl]
        rw [hdata, pyQuote_data]
        simp only [List.append_assoc, List.cons_append, List.singleton_append,
          List.nil_append]
        simp only [parsePairs]
        rw [skipWs_newline, skipWs_replicate, skipWs_cons_not_ws (by decide) (by decide)]
        dsimp only
        rw [if_neg (by decide : ¬(('"' : Char) = '\x7d')), if_pos rfl]
        rw [parseStringBody_escape k.data _ (cleanChars_spec hclean.1.1)]
        dsimp only
        rw [skipWs_cons_not_ws (by decide) (by decide)]
        dsimp only
        rw [if_pos rfl]
        have hg1 : 1 ≤ g := by have := pvFuel_pos pv; have := pairsFuel_pos ps'; omega
        obtain ⟨g', rfl⟩ : ∃ g', g = g' + 1 := ⟨g - 1, by omega⟩
        rw [parseValue_cons_space]
        have hV := (ih (g' + 1) (by omega)).1 pv cv (ind + 2)
          (',' :: '\n' :: ((renderPairs ind qs').data
            ++ (List.replicate (ind - 2) ' ' ++ '\x7d' :: rest)))
          hclean.1.2 hcv (by omega) (by intro c hc; simp at hc; subst hc; decide)
        simp only [List.cons_append, List.append_assoc] at hV ⊢
        rw [hV]
        dsimp only
        rw [skipWs_cons_not_ws (by decide) (by decide)]
        dsimp only
        rw [if_pos rfl]
        rw [(ih (g' + 1) (by omega)).2.2 ps' qs' ind rest hclean.2 hcs' (by omega)]
        rfl

/-! ### Round-trip machinery: the parser budget is covered by the text
length -/

theorem renderItems_cons_data {cv : Value} (cvs' : List Value) (ind : Nat)
    (hemp : isEmptyCall cv = false) :
    (renderItems ind (cv :: cvs')).data
      = List.replicate ind ' ' ++ ((render (ind + 2) cv).data
          ++ (',' :: '\n' :: (renderItems ind cvs').data)) := by
  simp [renderItems, hemp, String.data_append, spaces_data,
    show (",\n" : String).data = [',', '\n'] from rfl]

theorem renderPairs_cons_data {key : String} {cv : Value} (qs' : List (String × Value))
    (ind : Nat) (hemp : isEmptyCall cv = false) :
    (renderPairs ind ((key, cv) :: qs')).data
      = List.replicate ind ' ' ++ (key.data ++ (':' :: ' ' ::
          ((render (ind + 2) cv).data ++ (',' :: '\n' :: (renderPairs ind qs').data)))) := by
  simp [renderPairs, hemp, String.data_append, spaces_data,
    show (",\n" : String).data = [',', '\n'] from rfl,
    show (": " : String).data = [':', ' '] from rfl]

theorem pvFuel_lt_elemsFuel : ∀ {e : PyValue} {es : List PyValue},
    e ∈ es → pvFuel e < elemsFuel es := by
  intro e es h
  induction es with
  | nil => simp at h
  | cons e' es' ih =>
      rcases List.mem_cons.1 h with rfl | h'
      · simp only [elemsFuel]; omega
      · have := ih h'
        simp only [elemsFuel]; omega

theorem pvFuel_lt_pairsFuel : ∀ {k : String} {v : PyValue} {ps : List (String × PyValue)},
    (k, v) ∈ ps → pvFuel v < pairsFuel ps := by
  intro k v ps h
  induction ps with
  | nil => simp at h
  | cons p ps' ih =>
      obtain ⟨k', v'⟩ := p
      rcases List.mem_cons.1 h with heq | h'
      · obtain ⟨rfl, rfl⟩ := Prod.ext_iff.1 heq
        simp only [pairsFuel]; omega
      · have := ih h'
        simp only [pairsFuel]; omega

theorem elemsFuel_le_len (es : List PyValue)
    (IH : ∀ e ∈ es, ∀ (cv : Value) (ind : Nat), convert_direct e = .ok cv →
      pvFuel e ≤ (render ind cv).data.length + 1) :
    ∀ (cvs : List Value) (ind : Nat), convertDirectList es = .ok cvs →
      elemsFuel es ≤ (renderItems ind cvs).data.length + 1 := by
  induction es with
  | nil =>
      intro cvs ind hc
      simp only [convertDirectList, Except.ok.injEq] at hc
      subst hc
      simp [elemsFuel, renderItems]
  | cons e es' ihe =>
      intro cvs ind hc
      simp only [convertDirectList] at hc
      rcases hcv : convert_direct e with e₀ | cv <;> rw [hcv] at hc <;>
        simp only [bind, Except.bind] at hc
      · exact absurd hc (by simp)
      rcases hcs' : convertDirectList es' with e₀ | cvs' <;> rw [hcs'] at hc <;>
        simp only [bind, Except.bind] at hc
      · exact absurd hc (by simp)
      simp only [Except.ok.injEq] at hc
      subst hc
      have h1 := IH e (by simp) cv (ind + 2) hcv
      have h2 := ihe (fun e' he' cv' ind' => IH e' (by simp [he']) cv' ind') cvs' ind hcs'
      have hemp := convert_ok_not_emptyCall hcv
      rw [renderItems_cons_data cvs' ind hemp]
      simp only [List.length_append, List.length_replicate, List.length_cons, elemsFuel]
      omega

theorem pairsFuel_le_len (ps : List (String × PyValue))
    (IH : ∀ p ∈ ps, ∀ (cv : Value) (ind : Nat), convert_direct p.2 = .ok cv →
      pvFuel p.2 ≤ (render ind cv).data.length + 1) :
    ∀ (qs : List (String × Value)) (ind : Nat), convertDirectPairs ps = .ok qs →
      pairsFuel ps ≤ (renderPairs ind qs).data.length + 1 := by
  induction ps with
  | nil =>
      intro qs ind hc
      simp only [convertDirectPairs, Except.ok.injEq] at hc
      subst hc
      simp [pairsFuel, renderPairs]
  | cons p ps' ihp =>
      obtain ⟨k, pv⟩ := p
      intro qs ind hc
      simp only [convertDirectPairs] at hc
      rcases hcv : convert_direct pv with e₀ | cv <;> rw [hcv] at hc <;>
        simp only [bind, Except.bind] at hc
      · exact absurd hc (by simp)
      rcases hcs' : convertDirectPairs ps' with e₀ | qs' <;> rw [hcs'] at hc <;>
        simp only [bind, Except.bind] at hc
      · exact absurd hc (by simp)
      simp only [Except.ok.injEq] at hc
      subst hc
      have h1 : pvFuel pv ≤ ((render (ind + 2) cv).data).length + 1 :=
        IH (k, pv) (by simp) cv (ind + 2) hcv
      have h2 := ihp (fun p' hp' cv' ind' => IH p' (by simp [hp']) cv' ind') qs' ind hcs'
      have hemp := convert_ok_not_emptyCall hcv
      rw [renderPairs_cons_data qs' ind hemp]
      simp only [List.length_append, List.length_replicate, List.length_cons, pairsFuel]
      omega

theorem pvFuel_le_render_len : ∀ (N : Nat) (v : PyValue) (cv : Value) (ind : Nat),
    pvFuel v ≤ N → convert_direct v = .ok cv →
    pvFuel v ≤ (render ind cv).data.length + 1 := by
  intro N
  induction N using Nat.strong_induction_on with
  | _ N ih =>
    intro v cv ind hN hconv
    cases v with
    | none => simp [pvFuel]
    | bool b => simp [pvFuel]
    | int n => simp [pvFuel]
    | str s => simp [pvFuel]
    | other r =>
        simp only [convert_direct] at hconv
        exact absurd hconv (by simp)
    | list es =>
        simp only [convert_direct] at hconv
        rcases hc : convertDirectList es with e₀ | vs <;> rw [hc] at hconv <;>
          simp only [bind, Except.bind] at hconv
        · exact absurd hconv (by simp)
        simp only [Except.ok.injEq] at hconv
        subst hconv
        have hinner := elemsFuel_le_len es
          (fun e he cv' ind' hconv' =>
            ih (pvFuel e)
              (by have h1 := pvFuel_lt_elemsFuel he; simp only [pvFuel] at hN; omega)
              e cv' ind' (le_refl _) hconv')
          vs ind hc
        by_cases hb : renderItems ind vs = ""
        · rw [hb] at hinner
          rw [show render ind (Value.listB vs) = "[]" by simp [render, hb]]
          simp only [pvFuel, List.length_cons, List.length_nil]
          simp at hinner
          omega
        · rw [show render ind (Value.listB vs)
              = "[\n" ++ renderItems ind vs ++ spaces (ind - 2) ++ "]" by simp [render, hb]]
          simp only [pvFuel, String.data_append, List.length_append, spaces_data,
            List.length_replicate, List.length_cons, List.length_nil]
          omega
    | dict ps =>
        simp only [convert_direct] at hconv
        rcases hc : convertDirectPairs ps with e₀ | qs <;> rw [hc] at hconv <;>
          simp only [bind, Except.bind] at hconv
        · exact absurd hconv (by simp)
        simp only [Except.ok.injEq] at hconv
        subst hconv
        have hinner := pairsFuel_le_len ps
          (fun p hp cv' ind' hconv' =>
            ih (pvFuel p.2)
              (by
                have h1 : pvFuel p.2 < pairsFuel ps := by
                  obtain ⟨k, v⟩ := p
                  exact pvFuel_lt_pairsFuel hp
                simp only [pvFuel] at hN
                omega)
              p.2 cv' ind' (le_refl _) hconv')
          qs ind hc
        by_cases hb : renderPairs ind qs = ""
        · rw [hb] at hinner
          rw [show render ind (Value.dictB qs) = "\x7b\x7d" by simp [render, hb]]
          simp only [pvFuel, List.length_cons, List.length_nil]
          simp at hinner
          omega
        · rw [show render ind (Value.dictB qs)
              = "\x7b\n" ++ renderPairs ind qs ++ spaces (ind - 2) ++ "\x7d" by
            simp [render, hb]]
          simp only [pvFuel, String.data_append, List.length_append, spaces_data,
            List.length_replicate, List.length_cons, List.length_nil]
          omega

/-- C7, counterexample: the round-trip fails on a string containing a
backslash. The literal converter escapes only double quotes, so the string
consisting of one backslash renders as `"\"` whose backslash escapes the
closing quote — re-parsing under the target grammar fails (and in
particular does not give back the original value). -/
theorem C7_counterexample_backslash :
    convert_direct (.str "\\") = .ok (.atom "\"\\\"") ∧
    render 2 (Value.atom "\"\\\"") = "\"\\\"" ∧
    parseStarlark "\"\\\"" = Option.none := by
  refine ⟨?_, ?_, ?_⟩
  · simp [convert_direct, pyQuote, escapeQuotes]
  · simp [render]
  · rfl

/-- C7, amended: for every literal-convertible value whose strings
(including mapping keys) contain no backslash and no newline, rendering the
literal conversion yields syntax whose re-parsing under the target grammar
gives back a structurally equal value. -/
theorem C7_roundtrip_clean :
    ∀ (v : PyValue) (cv : Value), cleanPy v = true → convert_direct v = .ok cv →
      parseStarlark (render 2 cv) = some v := by
  intro v cv hclean hconv
  have hlen := pvFuel_le_render_len (pvFuel v) v cv 2 (le_refl _) hconv
  have h := (parse_render_main ((render 2 cv).data.length + 1)).1 v cv 2 []
    hclean hconv hlen (fun c hc => by simp at hc)
  rw [List.append_nil] at h
  simp only [parseStarlark, h]
  rfl

/-- Witness for C7's amended round trip at a concrete nested value. -/
theorem C7_roundtrip_clean_witness :
    cleanPy (PyValue.dict [("a", .list [.int 1, .int (-2), .str "x\"y"]),
      ("b", .bool true), ("c", PyValue.none)]) = true ∧
    convert_direct (PyValue.dict [("a", .list [.int 1, .int (-2), .str "x\"y"]),
      ("b", .bool true), ("c", PyValue.none)])
      = .ok (Value.dictB [("\"a\"", Value.listB
            [Value.atom "1", Value.atom "-2", Value.atom "\"x\\\"y\""]),
          ("\"b\"", Value.atom "True"), ("\"c\"", Value.atom "None")]) ∧
    parseStarlark (render 2 (Value.dictB [("\"a\"", Value.listB
            [Value.atom "1", Value.atom "-2", Value.atom "\"x\\\"y\""]),
          ("\"b\"", Value.atom "True"), ("\"c\"", Value.atom "None")]))
      = some (PyValue.dict [("a", .list [.int 1, .int (-2), .str "x\"y"]),
          ("b", .bool true), ("c", PyValue.none)]) := by
  have hclean : cleanPy (PyValue.dict [("a", .list [.int 1, .int (-2), .str "x\"y"]),
      ("b", .bool true), ("c", PyValue.none)]) = true := by
    simp [cleanPy, cleanList, cleanPairs, cleanChars]
  have hconv : convert_direct (PyValue.dict [("a", .list [.int 1, .int (-2), .str "x\"y"]),
      ("b", .bool true), ("c", PyValue.none)])
      = .ok (Value.dictB [("\"a\"", Value.listB
            [Value.atom "1", Value.atom "-2", Value.atom "\"x\\\"y\""]),
          ("\"b\"", Value.atom "True"), ("\"c\"", Value.atom "None")]) := by
    simp [convert_direct, convertDirectList, convertDirectPairs, pyQuote, escapeQuotes,
      pyIntStr, natDigsAux, digitChar, bind, Except.bind, pure, Except.pure]
  exact ⟨hclean, hconv, C7_roundtrip_clean _ _ hclean hconv⟩

/-! ### Format-contract machinery: atoms and helper facts -/

theorem data_ne_nil {s : String} (h : s ≠ "") : s.data ≠ [] :=
  fun hd => h (String.ext hd)

theorem mem_of_getLast?_eq {α : Type} {l : List α} {a : α} (h : l.getLast? = some a) :
    a ∈ l := by
  obtain ⟨hne, heq⟩ := List.mem_getLast?_eq_getLast (Option.mem_def.2 h)
  subst heq
  exact List.getLast_mem hne

theorem goodAtom_spec {s : String} (h : goodAtom s = true) : FmtAtom s.data := by
  simp only [goodAtom, Bool.and_eq_true, Bool.not_eq_true', List.isEmpty_eq_false,
    bne_iff_ne, ne_eq] at h
  exact ⟨h.1.1, h.1.2, h.2⟩

theorem goodName_spec {s : String} (h : goodName s = true) :
    s.data ≠ [] ∧ ∀ c ∈ s.data, c ≠ ' ' ∧ c ≠ '\n' := by
  simp only [goodName, Bool.and_eq_true, Bool.not_eq_true', List.isEmpty_eq_false,
    List.all_eq_true, bne_iff_ne, ne_eq] at h
  exact ⟨h.1, fun c hc => (h.2 c hc)⟩

theorem goodAtom_of_parts {s : String} {c : Char} {l : List Char}
    (hdata : s.data = c :: l) (hc : c ≠ ' ')
    (hlast : (c :: l).getLast? ≠ some '\n') : goodAtom s = true := by
  simp [goodAtom, hdata, hc, hlast]

theorem goodAtom_pyQuote (s : String) : goodAtom (pyQuote s) = true := by
  refine goodAtom_of_parts (pyQuote_data s) (by decide) ?_
  rw [show ('"' :: (escapeQuotes s.data ++ ['"'])) = ('"' :: escapeQuotes s.data) ++ ['"'] from
      by simp, List.getLast?_concat]
  decide

theorem goodAtom_mk_digits (l : List Char) (hne : l ≠ [])
    (hd : ∀ c ∈ l, isDigitChar c = true) : goodAtom (String.mk l) = true := by
  cases l with
  | nil => exact absurd rfl hne
  | cons c cs =>
      refine goodAtom_of_parts rfl (digit_ne_chars (hd c (by simp))).1 ?_
      intro h
      exact absurd (hd '\n' (mem_of_getLast?_eq h)) (by decide)

theorem goodAtom_pyIntStr (n : Int) : goodAtom (pyIntStr n) = true := by
  unfold pyIntStr
  split
  · rw [natDigsAux_eq, List.append_nil]
    have hdata : ("-" ++ String.mk (digitsOf (-n).toNat)).data
        = '-' :: digitsOf (-n).toNat := by
      simp [String.data_append]
    refine goodAtom_of_parts hdata (by decide) ?_
    intro h
    rcases List.mem_cons.1 (mem_of_getLast?_eq h) with h' | h'
    · exact absurd h' (by decide)
    · exact absurd (digitsOf_all_digits _ '\n' h') (by decide)
  · rw [natDigsAux_eq, List.append_nil]
    exact goodAtom_mk_digits _ (digitsOf_ne_nil _) (digitsOf_all_digits _)

theorem goodValList_append (l₁ l₂ : List Value) :
    goodValList (l₁ ++ l₂) = (goodValList l₁ && goodValList l₂) := by
  induction l₁ with
  | nil => simp [goodValList]
  | cons v rest ih => simp [goodValList, ih, Bool.and_assoc]

theorem insertOrReplace_good : ∀ {acc : List (String × Value)} {k : String} {v : Value},
    goodValPairs acc = true → goodAtom k = true → goodVal v = true →
    goodValPairs (insertOrReplace acc k v) = true := by
  intro acc
  induction acc with
  | nil =>
      intro k v _ hk hv
      simp [insertOrReplace, goodValPairs, hk, hv]
  | cons p rest ih =>
      obtain ⟨k₀, v₀⟩ := p
      intro k v hacc hk hv
      simp only [goodValPairs, Bool.and_eq_true] at hacc
      simp only [insertOrReplace]
      by_cases he : k₀ = k
      · rw [if_pos he]
        simp [goodValPairs, hk, hv, hacc.2]
      · rw [if_neg he]
        simp [goodValPairs, hacc.1.1, hacc.1.2, ih hacc.2 hk hv]

theorem goodValList_map_quote : ∀ l : List String,
    goodValList (l.map fun s => Value.atom (pyQuote s)) = true := by
  intro l
  induction l with
  | nil => simp [goodValList]
  | cons s rest ih => simp [goodValList, goodVal, goodAtom_pyQuote, ih]

theorem renderParams_cons_data {p : String} {cv : Value} (qs' : List (String × Value))
    (ind : Nat) (hemp : isEmptyCall cv = false) :
    (renderParams ind ((p, cv) :: qs')).data
      = List.replicate ind ' ' ++ (p.data ++ (' ' :: '=' :: ' ' ::
          ((render (ind + 2) cv).data ++ (',' :: '\n' :: (renderParams ind qs').data)))) := by
  simp [renderParams, hemp, String.data_append, spaces_data,
    show (",\n" : String).data = [',', '\n'] from rfl,
    show (" = " : String).data = [' ', '=', ' '] from rfl]

theorem render_listB_last (ts : List Value) (ind : Nat) :
    (render ind (Value.listB ts)).data.getLast? = some ']' := by
  by_cases hb : renderItems ind ts = ""
  · rw [show render ind (Value.listB ts) = "[]" from by simp [render, hb]]
    decide
  · rw [show render ind (Value.listB ts)
        = "[\n" ++ renderItems ind ts ++ spaces (ind - 2) ++ "]" from by simp [render, hb]]
    simp only [String.data_append, spaces_data,
      show ("[\n" : String).data = ['[', '\n'] from rfl,
      show ("]" : String).data = [']'] from rfl, List.cons_append, List.nil_append,
      List.append_assoc]
    rw [show '[' :: '\n' :: ((renderItems ind ts).data
          ++ (List.replicate (ind - 2) ' ' ++ [']']))
        = ('[' :: '\n' :: ((renderItems ind ts).data ++ List.replicate (ind - 2) ' '))
          ++ [']'] from by simp]
    exact List.getLast?_concat _

theorem render_dictB_last (ps : List (String × Value)) (ind : Nat) :
    (render ind (Value.dictB ps)).data.getLast? = some '\x7d' := by
  by_cases hb : renderPairs ind ps = ""
  · rw [show render ind (Value.dictB ps) = "\x7b\x7d" from by simp [render, hb]]
    decide
  · rw [show render ind (Value.dictB ps)
        = "\x7b\n" ++ renderPairs ind ps ++ spaces (ind - 2) ++ "\x7d" from by
        simp [render, hb]]
    simp only [String.data_append, spaces_data,
      show ("\x7b\n" : String).data = ['\x7b', '\n'] from rfl,
      show ("\x7d" : String).data = ['\x7d'] from rfl, List.cons_append, List.nil_append,
      List.append_assoc]
    rw [show '\x7b' :: '\n' :: ((renderPairs ind ps).data
          ++ (List.replicate (ind - 2) ' ' ++ ['\x7d']))
        = ('\x7b' :: '\n' :: ((renderPairs ind ps).data ++ List.replicate (ind - 2) ' '))
          ++ ['\x7d'] from by simp]
    exact List.getLast?_concat _

/-- The renderer meets the format grammar: every rendered value whose
atoms, keys and call names are grammar-acceptable is generated by `FmtVal`
at its indentation — two spaces per nesting level, a trailing comma and
newline after every list element, dict pair and call parameter, closing
delimiters two spaces shallower. -/
theorem render_fmt_main : ∀ N : Nat,
    (∀ (v : Value) (ind : Nat), vSize v < N → goodVal v = true →
      FmtVal ind (render ind v).data) ∧
    (∀ (es : List Value) (ind : Nat), vlSize es < N → goodValList es = true →
      FmtItems ind (renderItems ind es).data) ∧
    (∀ (ps : List (String × Value)) (ind : Nat), vpSize ps < N → goodValPairs ps = true →
      FmtPairs ind (renderPairs ind ps).data) ∧
    (∀ (ps : List (String × Value)) (ind : Nat), vpSize ps < N → goodValPairs ps = true →
      FmtParams ind (renderParams ind ps).data) := by
  intro N
  induction N using Nat.strong_induction_on with
  | _ N ih =>
  refine ⟨?_, ?_, ?_, ?_⟩
  · -- single values
    intro v ind hN hg
    cases v with
    | atom s =>
        rw [show render ind (Value.atom s) = s from by simp [render]]
        exact FmtVal.atom ind s.data (goodAtom_spec (by simpa [goodVal] using hg))
    | listB es =>
        have hlt : vlSize es < vSize (Value.listB es) := by
          simp only [vSize]; omega
        have hitems := (ih (vSize (Value.listB es)) hN).2.1 es ind hlt
          (by simpa [goodVal] using hg)
        by_cases hb : renderItems ind es = ""
        · rw [show render ind (Value.listB es) = "[]" from by simp [render, hb]]
          exact FmtVal.listEmpty ind
        · rw [show render ind (Value.listB es)
              = "[\n" ++ renderItems ind es ++ spaces (ind - 2) ++ "]" from by
              simp [render, hb]]
          simp only [String.data_append, spaces_data,
            show ("[\n" : String).data = ['[', '\n'] from rfl,
            show ("]" : String).data = [']'] from rfl, List.cons_append, List.nil_append,
            List.append_assoc]
          exact FmtVal.listNE ind (renderItems ind es).data (data_ne_nil hb) hitems
    | dictB ps =>
        have hlt : vpSize ps < vSize (Value.dictB ps) := by
          simp only [vSize]; omega
        have hpairs := (ih (vSize (Value.dictB ps)) hN).2.2.1 ps ind hlt
          (by simpa [goodVal] using hg)
        by_cases hb : renderPairs ind ps = ""
        · rw [show render ind (Value.dictB ps) = "\x7b\x7d" from by simp [render, hb]]
          exact FmtVal.dictEmpty ind
        · rw [show render ind (Value.dictB ps)
              = "\x7b\n" ++ renderPairs ind ps ++ spaces (ind - 2) ++ "\x7d" from by
              simp [render, hb]]
          simp only [String.data_append, spaces_data,
            show ("\x7b\n" : String).data = ['\x7b', '\n'] from rfl,
            show ("\x7d" : String).data = ['\x7d'] from rfl, List.cons_append,
            List.nil_append, List.append_assoc]
          exact FmtVal.dictNE ind (renderPairs ind ps).data (data_ne_nil hb) hpairs
    | callB t ps el =>
        have hgn : goodName t = true ∧ goodValPairs ps = true := by
          simpa [goodVal, Bool.and_eq_true] using hg
        obtain ⟨hne, hchars⟩ := goodName_spec hgn.1
        have hlt : vpSize ps < vSize (Value.callB t ps el) := by
          simp only [vSize]; omega
        have hparams := (ih (vSize (Value.callB t ps el)) hN).2.2.2 ps ind hlt hgn.2
        rcases ps with _ | ⟨⟨p, pv⟩, ps'⟩
        · rw [show render ind (Value.callB t [] el)
              = t ++ "(\n" ++ spaces (ind - 2) ++ ")" from by simp [render]]
          simp only [String.data_append, spaces_data,
            show ("(\n" : String).data = ['(', '\n'] from rfl,
            show (")" : String).data = [')'] from rfl, List.cons_append, List.nil_append,
            List.append_assoc]
          exact FmtVal.call ind t.data [] hne hchars (FmtParams.nil ind)
        · rcases ps' with _ | ⟨q, ps''⟩
          · rcases el with _ | e
            · rw [show render ind (Value.callB t [(p, pv)] Option.none)
                  = t ++ "(\n" ++ renderParams ind [(p, pv)] ++ spaces (ind - 2) ++ ")"
                  from by simp [render]]
              simp only [String.data_append, spaces_data,
                show ("(\n" : String).data = ['(', '\n'] from rfl,
                show (")" : String).data = [')'] from rfl, List.cons_append,
                List.nil_append, List.append_assoc]
              exact FmtVal.call ind t.data (renderParams ind [(p, pv)]).data hne hchars
                hparams
            · by_cases hpe : p = e
              · subst hpe
                rw [show render ind (Value.callB t [(p, pv)] (some p)) = render ind pv
                    from by simp [render]]
                have hglt : vSize pv < vSize (Value.callB t [(p, pv)] (some p)) := by
                  simp only [vSize, vpSize]; omega
                refine (ih (vSize (Value.callB t [(p, pv)] (some p))) hN).1 pv ind hglt ?_
                have hp := hgn.2
                simp only [goodValPairs, Bool.and_eq_true] at hp
                exact hp.1.2
              · rw [show render ind (Value.callB t [(p, pv)] (some e))
                    = t ++ "(\n" ++ renderParams ind [(p, pv)] ++ spaces (ind - 2) ++ ")"
                    from by simp [render, hpe]]
                simp only [String.data_append, spaces_data,
                  show ("(\n" : String).data = ['(', '\n'] from rfl,
                  show (")" : String).data = [')'] from rfl, List.cons_append,
                  List.nil_append, List.append_assoc]
                exact FmtVal.call ind t.data (renderParams ind [(p, pv)]).data hne hchars
                  hparams
          · rw [show render ind (Value.callB t ((p, pv) :: q :: ps'') el)
                = t ++ "(\n" ++ renderParams ind ((p, pv) :: q :: ps'')
                    ++ spaces (ind - 2) ++ ")" from by simp [render]]
            simp only [String.data_append, spaces_data,
              show ("(\n" : String).data = ['(', '\n'] from rfl,
              show (")" : String).data = [')'] from rfl, List.cons_append,
              List.nil_append, List.append_assoc]
            exact FmtVal.call ind t.data (renderParams ind ((p, pv) :: q :: ps'')).data
              hne hchars hparams
  · -- list elements
    intro es ind hN hg
    cases es with
    | nil =>
        rw [show renderItems ind [] = "" from by simp [renderItems]]
        exact FmtItems.nil ind
    | cons v rest =>
        have hg' : goodVal v = true ∧ goodValList rest = true := by
          simpa [goodValList, Bool.and_eq_true] using hg
        have hrest := (ih (vlSize (v :: rest)) hN).2.1 rest ind
          (by simp only [vlSize]; omega) hg'.2
        by_cases hemp : isEmptyCall v = true
        · rw [show renderItems ind (v :: rest) = renderItems ind rest from by
            simp [renderItems, hemp]]
          exact hrest
        · have hv := (ih (vlSize (v :: rest)) hN).1 v (ind + 2)
            (by simp only [vlSize]; omega) hg'.1
          rw [renderItems_cons_data rest ind
            (by simp only [Bool.not_eq_true] at hemp; exact hemp)]
          exact FmtItems.cons ind _ _ hv hrest
  · -- dict pairs
    intro ps ind hN hg
    cases ps with
    | nil =>
        rw [show renderPairs ind [] = "" from by simp [renderPairs]]
        exact FmtPairs.nil ind
    | cons pr rest =>
        obtain ⟨k, v⟩ := pr
        have hg' : goodAtom k = true ∧ goodVal v = true ∧ goodValPairs rest = true := by
          simpa [goodValPairs, Bool.and_eq_true, and_assoc] using hg
        have hrest := (ih (vpSize ((k, v) :: rest)) hN).2.2.1 rest ind
          (by simp only [vpSize]; omega) hg'.2.2
        by_cases hemp : isEmptyCall v = true
        · rw [show renderPairs ind ((k, v) :: rest) = renderPairs ind rest from by
            simp [renderPairs, hemp]]
          exact hrest
        · have hv := (ih (vpSize ((k, v) :: rest)) hN).1 v (ind + 2)
            (by simp only [vpSize]; omega) hg'.2.1
          rw [renderPairs_cons_data rest ind
            (by simp only [Bool.not_eq_true] at hemp; exact hemp)]
          exact FmtPairs.cons ind _ _ _ (goodAtom_spec hg'.1) hv hrest
  · -- call parameters
    intro ps ind hN hg
    cases ps with
    | nil =>
        rw [show renderParams ind [] = "" from by simp [renderParams]]
        exact FmtParams.nil ind
    | cons pr rest =>
        obtain ⟨k, v⟩ := pr
        have hg' : goodAtom k = true ∧ goodVal v = true ∧ goodValPairs rest = true := by
          simpa [goodValPairs, Bool.and_eq_true, and_assoc] using hg
        have hrest := (ih (vpSize ((k, v) :: rest)) hN).2.2.2 rest ind
          (by simp only [vpSize]; omega) hg'.2.2
        by_cases hemp : isEmptyCall v = true
        · rw [show renderParams ind ((k, v) :: rest) = renderParams ind rest from by
            simp [renderParams, hemp]]
          exact hrest
        · have hv := (ih (vpSize ((k, v) :: rest)) hN).1 v (ind + 2)
            (by simp only [vpSize]; omega) hg'.2.1
          rw [renderParams_cons_data rest ind
            (by simp only [Bool.not_eq_true] at hemp; exact hemp)]
          exact FmtParams.cons ind _ _ _ (goodAtom_spec hg'.1) hv hrest

/-- Every grammar-acceptable builder value renders into the format
grammar, at any indentation. -/
theorem render_fmt (ind : Nat) {v : Value} (h : goodVal v = true) :
    FmtVal ind (render ind v).data :=
  (render_fmt_main (vSize v + 1)).1 v ind (Nat.lt_succ_self _) h

/-! ### Format-contract machinery: the converters emit grammar-acceptable
values -/

theorem convert_good_main : ∀ N : Nat,
    (∀ (v : PyValue) (cv : Value), pvFuel v ≤ N → convert_direct v = .ok cv →
      goodVal cv = true) ∧
    (∀ (es : List PyValue) (cvs : List Value), elemsFuel es ≤ N →
      convertDirectList es = .ok cvs → goodValList cvs = true) ∧
    (∀ (ps : List (String × PyValue)) (qs : List (String × Value)), pairsFuel ps ≤ N →
      convertDirectPairs ps = .ok qs → goodValPairs qs = true) := by
  intro N
  induction N using Nat.strong_induction_on with
  | _ N ih =>
  refine ⟨?_, ?_, ?_⟩
  · intro v cv hN h
    cases v with
    | none =>
        simp only [convert_direct, Except.ok.injEq] at h
        subst h
        simp [goodVal, goodAtom]
    | bool b =>
        cases b <;> simp only [convert_direct, Except.ok.injEq] at h <;> subst h <;>
          simp [goodVal, goodAtom]
    | int n =>
        simp only [convert_direct, Except.ok.injEq] at h
        subst h
        simp only [goodVal]
        exact goodAtom_pyIntStr n
    | str s =>
        simp only [convert_direct, Except.ok.injEq] at h
        subst h
        simp only [goodVal]
        exact goodAtom_pyQuote s
    | list es =>
        simp only [convert_direct] at h
        rcases hes : convertDirectList es with e | vs <;> rw [hes] at h <;>
          simp only [bind, Except.bind] at h
        · simp at h
        · simp only [Except.ok.injEq] at h
          subst h
          simp only [goodVal]
          have hfu : elemsFuel es < N := by
            simp only [pvFuel] at hN; omega
          exact (ih (elemsFuel es) hfu).2.1 es vs (Nat.le_refl _) hes
    | dict ps =>
        simp only [convert_direct] at h
        rcases hps : convertDirectPairs ps with e | qs <;> rw [hps] at h <;>
          simp only [bind, Except.bind] at h
        · simp at h
        · simp only [Except.ok.injEq] at h
          subst h
          simp only [goodVal]
          have hfu : pairsFuel ps < N := by
            simp only [pvFuel] at hN; omega
          exact (ih (pairsFuel ps) hfu).2.2 ps qs (Nat.le_refl _) hps
    | other rep => simp [convert_direct] at h
  · intro es cvs hN h
    cases es with
    | nil =>
        simp only [convertDirectList, Except.ok.injEq] at h
        subst h
        simp [goodValList]
    | cons e rest =>
        simp only [convertDirectList] at h
        rcases he : convert_direct e with err | v <;> rw [he] at h <;>
          simp only [bind, Except.bind] at h
        · simp at h
        · rcases hrest : convertDirectList rest with err | vs <;> rw [hrest] at h <;>
            simp only [bind, Except.bind] at h
          · simp at h
          · simp only [Except.ok.injEq] at h
            subst h
            simp only [elemsFuel] at hN
            simp only [goodValList, Bool.and_eq_true]
            refine ⟨(ih (pvFuel e) (by omega)).1 e v (Nat.le_refl _) he,
              (ih (elemsFuel rest) (by omega)).2.1 rest vs (Nat.le_refl _) hrest⟩
  · intro ps qs hN h
    cases ps with
    | nil =>
        simp only [convertDirectPairs, Except.ok.injEq] at h
        subst h
        simp [goodValPairs]
    | cons pr rest =>
        obtain ⟨k, e⟩ := pr
        simp only [convertDirectPairs] at h
        rcases he : convert_direct e with err | v <;> rw [he] at h <;>
          simp only [bind, Except.bind] at h
        · simp at h
        · rcases hrest : convertDirectPairs rest with err | qs' <;> rw [hrest] at h <;>
            simp only [bind, Except.bind] at h
          · simp at h
          · simp only [Except.ok.injEq] at h
            subst h
            simp only [pairsFuel] at hN
            simp only [goodValPairs, Bool.and_eq_true]
            refine ⟨⟨goodAtom_pyQuote k, (ih (pvFuel e) (by omega)).1 e v (Nat.le_refl _) he⟩,
              (ih (pairsFuel rest) (by omega)).2.2 rest qs' (Nat.le_refl _) hrest⟩

theorem convert_direct_good {v : PyValue} {cv : Value} (h : convert_direct v = .ok cv) :
    goodVal cv = true :=
  (convert_good_main (pvFuel v)).1 v cv (Nat.le_refl _) h

theorem convertDirectList_good {es : List PyValue} {cvs : List Value}
    (h : convertDirectList es = .ok cvs) : goodValList cvs = true :=
  (convert_good_main (elemsFuel es)).2.1 es cvs (Nat.le_refl _) h

theorem lookup_mem : ∀ {l : List (String × String)} {a b : String},
    l.lookup a = some b → (a, b) ∈ l := by
  intro l
  induction l with
  | nil => intro a b h; simp [List.lookup] at h
  | cons p rest ih =>
      obtain ⟨k, v⟩ := p
      intro a b h
      simp only [List.lookup] at h
      cases hbe : a == k with
      | false =>
          simp only [hbe] at h
          exact List.mem_cons_of_mem _ (ih h)
      | true =>
          simp only [hbe, Option.some.injEq] at h
          subst h
          have : a = k := eq_of_beq hbe
          subst this
          exact List.mem_cons_self _ _

theorem magic_name_good {arg name : String}
    (h : MAGIC_ARG_MAPPING.lookup arg = some name) :
    goodAtom ("targets.magic_args." ++ name) = true := by
  have hmem : (arg, name) ∈ MAGIC_ARG_MAPPING := lookup_mem h
  simp only [MAGIC_ARG_MAPPING, List.mem_cons, List.not_mem_nil, or_false] at hmem
  rcases hmem with h' | h' | h' | h' | h' | h' | h' | h' <;>
    · injection h' with h1 h2
      subst h2
      decide

theorem convert_arg_good {s : String} {cv : Value} (h : convert_arg s = .ok cv) :
    goodVal cv = true := by
  simp only [convert_arg] at h
  by_cases hpre : pyStartsWith s "$$MAGIC_SUBSTITUTION_" = true
  · rw [if_pos hpre] at h
    rcases hlk : MAGIC_ARG_MAPPING.lookup s with _ | name <;> rw [hlk] at h <;>
      dsimp only at h
    · simp at h
    · simp only [Except.ok.injEq] at h
      subst h
      simp only [goodVal]
      exact magic_name_good hlk
  · rw [if_neg hpre] at h
    exact convert_direct_good h

theorem convertOneArg_good {a : PyValue} {cv : Value} (h : convertOneArg a = .ok cv) :
    goodVal cv = true := by
  cases a <;> first
    | exact convert_arg_good h
    | exact absurd h (by simp [convertOneArg])

theorem convertArgList_good : ∀ {args : List PyValue} {vs : List Value},
    convertArgList args = .ok vs → goodValList vs = true := by
  intro args
  induction args with
  | nil =>
      intro vs h
      simp only [convertArgList, Except.ok.injEq] at h
      subst h
      simp [goodValList]
  | cons a rest ih =>
      intro vs h
      simp only [convertArgList] at h
      rcases ha : convertOneArg a with e | v <;> rw [ha] at h <;>
        simp only [bind, Except.bind] at h
      · simp at h
      · rcases hr : convertArgList rest with e | vs' <;> rw [hr] at h <;>
          simp only [bind, Except.bind] at h
        · simp at h
        · simp only [Except.ok.injEq] at h
          subst h
          simp only [goodValList, Bool.and_eq_true]
          exact ⟨convertOneArg_good ha, ih hr⟩

theorem convert_args_good {v : PyValue} {cv : Value} (h : convert_args v = .ok cv) :
    goodVal cv = true := by
  simp only [convert_args] at h
  rcases hi : pyIter v with e | args <;> rw [hi] at h <;>
    simp only [bind, Except.bind] at h
  · simp at h
  · rcases ha : convertArgList args with e | vs <;> rw [ha] at h <;>
      simp only [bind, Except.bind] at h
    · simp at h
    · simp only [Except.ok.injEq] at h
      subst h
      simp only [goodVal]
      exact convertArgList_good ha

theorem resultdbKeyMap_good {k ok : String} (h : resultdbKeyMap k = some ok) :
    goodAtom ok = true := by
  unfold resultdbKeyMap at h
  split at h <;> simp_all
  subst h
  decide

theorem swarmingKeyMap_good {k ok : String} (h : swarmingKeyMap k = some ok) :
    goodAtom ok = true := by
  unfold swarmingKeyMap at h
  split at h <;> simp_all <;> (subst h; decide)

theorem skylabKeyMap_good {k ok : String} (h : skylabKeyMap k = some ok) :
    goodAtom ok = true := by
  unfold skylabKeyMap at h
  split at h <;> simp_all <;> (subst h; decide)

theorem matrixKeyMap_good {k ok : String} (h : matrixKeyMap k = some ok) :
    goodAtom ok = true := by
  unfold matrixKeyMap at h
  split at h <;> simp_all <;> (subst h; decide)

theorem schemaGo_good (schema : String) (km : String → Option String)
    (hkm : ∀ k ok, km k = some ok → goodAtom ok = true) :
    ∀ (l : List (String × PyValue)) (acc qs : List (String × Value)),
      goodValPairs acc = true → schemaGo schema km acc l = .ok qs →
      goodValPairs qs = true := by
  intro l
  induction l with
  | nil =>
      intro acc qs hacc h
      simp only [schemaGo, Except.ok.injEq] at h
      subst h
      exact hacc
  | cons kv rest ih =>
      obtain ⟨key, value⟩ := kv
      intro acc qs hacc h
      simp only [schemaGo] at h
      rcases hk : km key with _ | out <;> rw [hk] at h <;> dsimp only at h
      · simp at h
      · rcases hc : convert_direct value with e | cv <;> rw [hc] at h <;>
          simp only [bind, Except.bind] at h
        · simp at h
        · exact ih _ _ (insertOrReplace_good hacc (hkm _ _ hk) (convert_direct_good hc)) h

theorem convert_resultdb_good {ps : List (String × PyValue)} {cv : Value}
    (h : convert_resultdb ps = .ok cv) : goodVal cv = true := by
  simp only [convert_resultdb] at h
  rcases hs : schemaGo "resultdb" resultdbKeyMap [] ps with e | qs <;> rw [hs] at h <;>
    simp only [bind, Except.bind] at h
  · simp at h
  · simp only [Except.ok.injEq] at h
    subst h
    simp only [goodVal, Bool.and_eq_true]
    exact ⟨by decide, schemaGo_good _ _ (fun k ok hk => resultdbKeyMap_good hk) ps [] qs
      (by simp [goodValPairs]) hs⟩

theorem convert_swarming_good {ps : List (String × PyValue)} {cv : Value}
    (h : convert_swarming ps = .ok cv) : goodVal cv = true := by
  simp only [convert_swarming] at h
  rcases hs : schemaGo "swarming" swarmingKeyMap [] ps with e | qs <;> rw [hs] at h <;>
    simp only [bind, Except.bind] at h
  · simp at h
  · simp only [Except.ok.injEq] at h
    subst h
    simp only [goodVal, Bool.and_eq_true]
    exact ⟨by decide, schemaGo_good _ _ (fun k ok hk => swarmingKeyMap_good hk) ps [] qs
      (by simp [goodValPairs]) hs⟩

theorem convert_skylab_good {ps : List (String × PyValue)} {cv : Value}
    (h : convert_skylab ps = .ok cv) : goodVal cv = true := by
  simp only [convert_skylab] at h
  rcases hs : schemaGo "skylab" skylabKeyMap [] ps with e | qs <;> rw [hs] at h <;>
    simp only [bind, Except.bind] at h
  · simp at h
  · simp only [Except.ok.injEq] at h
    subst h
    simp only [goodVal, Bool.and_eq_true]
    exact ⟨by decide, schemaGo_good _ _ (fun k ok hk => skylabKeyMap_good hk) ps [] qs
      (by simp [goodValPairs]) hs⟩

theorem bind_items_good {f : List (String × PyValue) → Except String Value}
    (hf : ∀ ps cv, f ps = .ok cv → goodVal cv = true)
    {v : PyValue} {cv : Value}
    (h : (pyItems v >>= f) = .ok cv) : goodVal cv = true := by
  rcases hi : pyItems v with e | ps <;> rw [hi] at h <;>
    simp only [bind, Except.bind] at h
  · simp at h
  · exact hf ps cv h

theorem basicKeyAction_anon_good {k out : String} {conv : PyValue → Except String Value}
    (h : basicKeyAction k = some (.anon out conv)) :
    goodAtom out = true ∧
    ∀ (v : PyValue) (cv : Value), conv v = .ok cv → goodVal cv = true := by
  unfold basicKeyAction at h
  split at h <;>
    first
    | (simp only [Option.some.injEq, BasicAction.anon.injEq] at h
       obtain ⟨rfl, rfl⟩ := h
       first
       | exact ⟨by decide, fun v cv hc => convert_direct_good hc⟩
       | exact ⟨by decide, fun v cv hc => convert_args_good hc⟩
       | exact ⟨by decide, fun v cv hc => bind_items_good
           (fun ps cv' hc' => convert_resultdb_good hc') hc⟩
       | exact ⟨by decide, fun v cv hc => bind_items_good
           (fun ps cv' hc' => convert_swarming_good hc') hc⟩
       | exact ⟨by decide, fun v cv hc => bind_items_good
           (fun ps cv' hc' => convert_skylab_good hc') hc⟩)
    | simp at h

theorem processTestKey_good {st st' : TestState} {k : String} {v : PyValue}
    (hst : goodState st = true) (h : processTestKey st k v = .ok st') :
    goodState st' = true := by
  simp only [goodState, Bool.and_eq_true] at hst
  simp only [processTestKey] at h
  rcases hact : basicKeyAction k with _ | act <;> rw [hact] at h
  · simp at h
  · cases act with
    | ignore =>
        dsimp only at h
        simp only [Except.ok.injEq] at h
        subst h
        simp only [goodState, Bool.and_eq_true]
        exact hst
    | anon out conv =>
        dsimp only at h
        rcases hc : conv v with e | cv <;> rw [hc] at h <;>
          simp only [bind, Except.bind] at h
        · simp at h
        · simp only [Except.ok.injEq] at h
          subst h
          obtain ⟨hout, hconv⟩ := basicKeyAction_anon_good hact
          simp only [goodState, Bool.and_eq_true]
          exact ⟨⟨insertOrReplace_good hst.1.1 hout (hconv v cv hc), hst.1.2⟩, hst.2⟩
    | mixins =>
        dsimp only at h
        rcases hi : pyIter v with e | es <;> rw [hi] at h <;>
          simp only [bind, Except.bind] at h
        · simp at h
        · rcases hl : convertDirectList es with e | named <;> rw [hl] at h <;>
            simp only [bind, Except.bind] at h
          · simp at h
          · simp only [Except.ok.injEq] at h
            subst h
            simp only [goodState, Bool.and_eq_true]
            exact ⟨⟨hst.1.1, convertDirectList_good hl⟩, hst.2⟩
    | removeMixins =>
        dsimp only at h
        rcases hi : pyIter v with e | es <;> rw [hi] at h <;>
          simp only [bind, Except.bind] at h
        · simp at h
        · rcases hl : convertDirectList es with e | rs <;> rw [hl] at h <;>
            simp only [bind, Except.bind] at h
          · simp at h
          · simp only [Except.ok.injEq] at h
            subst h
            simp only [goodState, Bool.and_eq_true]
            refine ⟨⟨hst.1.1, hst.1.2⟩, insertOrReplace_good hst.2 (by decide) ?_⟩
            simp only [goodVal, goodValList, Bool.and_eq_true]
            exact ⟨by decide, convertDirectList_good hl⟩

theorem processTestKeys_good : ∀ (l : List (String × PyValue)) (st st' : TestState),
    goodState st = true → processTestKeys st l = .ok st' → goodState st' = true := by
  intro l
  induction l with
  | nil =>
      intro st st' hst h
      simp only [processTestKeys, Except.ok.injEq] at h
      subst h
      exact hst
  | cons p rest ih =>
      obtain ⟨k, v⟩ := p
      intro st st' hst h
      simp only [processTestKeys] at h
      rcases h₁ : processTestKey st k v with e | st₁ <;> rw [h₁] at h <;>
        simp only [bind, Except.bind] at h
      · simp at h
      · exact ih st₁ st' (processTestKey_good hst h₁) h

theorem processTestDef_good {test : List (String × PyValue)} {mv : Value}
    (h : processTestDef test = .ok mv) : goodVal mv = true := by
  simp only [processTestDef] at h
  rcases hst : processTestKeys initTestState test with e | st <;> rw [hst] at h <;>
    simp only [bind, Except.bind] at h
  · simp at h
  · simp only [Except.ok.injEq] at h
    subst h
    have hg : goodState st = true := processTestKeys_good test initTestState st
      (by simp [goodState, initTestState, goodValPairs]) hst
    simp only [goodState, Bool.and_eq_true] at hg
    simp only [goodVal, Bool.and_eq_true]
    refine ⟨by decide, ?_⟩
    apply insertOrReplace_good hg.2 (by decide)
    rcases hmix : st.mixinsNamed with _ | named
    · simp only [hmix]
      simp only [goodVal, Bool.and_eq_true]
      exact ⟨by decide, hg.1.1⟩
    · simp only [hmix]
      have hnamed : goodValList named = true := by
        have := hg.1.2
        rw [hmix] at this
        exact this
      simp only [goodVal, goodValList, Bool.and_eq_true]
      exact ⟨⟨by decide, hg.1.1⟩, hnamed⟩

theorem basicGo_good : ∀ (suite : List (String × List (String × PyValue)))
    (ts0 : List Value) (ptm0 : List (String × Value)) (ts : List Value)
    (ptm : List (String × Value)),
    goodValList ts0 = true → goodValPairs ptm0 = true →
    basicGo ts0 ptm0 suite = .ok (ts, ptm) →
    goodValList ts = true ∧ goodValPairs ptm = true := by
  intro suite
  induction suite with
  | nil =>
      intro ts0 ptm0 ts ptm h1 h2 h
      simp only [basicGo, Except.ok.injEq, Prod.mk.injEq] at h
      obtain ⟨rfl, rfl⟩ := h
      exact ⟨h1, h2⟩
  | cons entry rest ih =>
      obtain ⟨name, test⟩ := entry
      intro ts0 ptm0 ts ptm h1 h2 h
      simp only [basicGo] at h
      rcases hmv : processTestDef test with e | mv <;> rw [hmv] at h <;>
        simp only [bind, Except.bind] at h
      · simp at h
      · refine ih _ _ _ _ ?_ ?_ h
        · rw [goodValList_append]
          simp only [Bool.and_eq_true]
          exact ⟨h1, by simp [goodValList, goodVal, goodAtom_pyQuote]⟩
        · exact insertOrReplace_good h2 (goodAtom_pyQuote name) (processTestDef_good hmv)

theorem matrixGo_good : ∀ (suite : List (String × List (String × PyValue)))
    (acc ts : List Value), goodValList acc = true → matrixGo acc suite = .ok ts →
    goodValList ts = true := by
  intro suite
  induction suite with
  | nil =>
      intro acc ts hacc h
      simp only [matrixGo, Except.ok.injEq] at h
      subst h
      exact hacc
  | cons entry rest ih =>
      obtain ⟨name, cfg⟩ := entry
      intro acc ts hacc h
      simp only [matrixGo] at h
      by_cases hcfg : cfg.isEmpty = true
      · rw [if_pos hcfg] at h
        refine ih _ _ ?_ h
        rw [goodValList_append]
        simp only [Bool.and_eq_true]
        exact ⟨hacc, by simp [goodValList, goodVal, goodAtom_pyQuote]⟩
      · rw [if_neg hcfg] at h
        rcases hs : schemaGo "matrix config" matrixKeyMap
            [("targets", Value.atom (pyQuote name))] cfg with e | ps <;> rw [hs] at h <;>
          simp only [bind, Except.bind] at h
        · simp at h
        · refine ih _ _ ?_ h
          rw [goodValList_append]
          simp only [Bool.and_eq_true]
          refine ⟨hacc, ?_⟩
          simp only [goodValList, goodVal, Bool.and_eq_true]
          refine ⟨⟨by decide, ?_⟩, trivial⟩
          exact schemaGo_good _ _ (fun k ok hk => matrixKeyMap_good hk) cfg _ ps
            (by simp [goodValPairs, goodVal, goodAtom_pyQuote,
              show goodAtom "targets" = true from by decide]) hs

end TargetsMigration
